import Mathlib

/-!
# Verification development for the BatteryModelMapper repository

Shallow embedding of the core modules:
* `BatteryModelMapper/parameter_mapper.py` (`ParameterMapper`)
* `BatteryModelMapper/ontology_parser.py` (`OntologyParser`)
* `BatteryModelMapper/jsonld_exporter.py` (`export_jsonld` and helpers)

Modelling conventions:
* Python/JSON numbers are modelled as `ℚ` (finite values only; `float`
  parsing of `inf`/`nan` text and shortest-round-trip float `repr` are
  approximated, as noted at the definitions that render numbers).
* Python dictionaries are insertion-ordered association lists.
* Python's reference semantics (needed for `template.copy()` being a
  shallow copy, and for in-place mutation in `set_value_from_path`) is made
  explicit by a heap model: a `Store` maps addresses to `Node`s, and the
  translator (`map_parameters`) is embedded as a state transformer over it.
* Caught exceptions (`except (KeyError, IndexError, ValueError, TypeError)`)
  are modelled by an error type `PyErr`; an uncaught exception shows up as
  `Except.error`.
-/

set_option maxHeartbeats 1000000

namespace BMM

/-- Python exception kinds relevant to the embedded code.  Exception
messages are modelled only where the code's behaviour depends on them
(`ValueError` carries the format-error message raised by
`OntologyParser.get_mappings` / `export_jsonld`). -/
inductive PyErr where
  | valueError (msg : String)
  | keyError
  | indexError
  | typeError
  | attributeError
  deriving DecidableEq, Repr

instance {e a : Type} [DecidableEq e] [DecidableEq a] : DecidableEq (Except e a) := fun x y =>
  match x, y with
  | .ok u, .ok v => if h : u = v then .isTrue (by rw [h]) else .isFalse (by simp [h])
  | .error u, .error v => if h : u = v then .isTrue (by rw [h]) else .isFalse (by simp [h])
  | .ok _, .error _ => .isFalse nofun
  | .error _, .ok _ => .isFalse nofun

/-- A Python object produced by `ast.literal_eval` on an ontology path
literal: the path components (strings and ints) and the tuple/list shells.
Other literal shapes (floats, `None`, booleans, dicts, sets) do not occur
in path literals and are treated as parse failures by the literal parser
below. -/
inductive PyObj where
  | int (n : Int)
  | str (s : String)
  | tuple (xs : List PyObj)
  | list (xs : List PyObj)
  deriving Repr

mutual

def PyObj.decEq : (a b : PyObj) → Decidable (a = b)
  | .int a, .int b =>
      if h : a = b then .isTrue (by rw [h]) else .isFalse (by simp [h])
  | .int _, .str _ => .isFalse nofun
  | .int _, .tuple _ => .isFalse nofun
  | .int _, .list _ => .isFalse nofun
  | .str _, .int _ => .isFalse nofun
  | .str a, .str b =>
      if h : a = b then .isTrue (by rw [h]) else .isFalse (by simp [h])
  | .str _, .tuple _ => .isFalse nofun
  | .str _, .list _ => .isFalse nofun
  | .tuple _, .int _ => .isFalse nofun
  | .tuple _, .str _ => .isFalse nofun
  | .tuple xs, .tuple ys =>
      match PyObj.decEqList xs ys with
      | .isTrue h => .isTrue (by rw [h])
      | .isFalse h => .isFalse (by simp [h])
  | .tuple _, .list _ => .isFalse nofun
  | .list _, .int _ => .isFalse nofun
  | .list _, .str _ => .isFalse nofun
  | .list _, .tuple _ => .isFalse nofun
  | .list xs, .list ys =>
      match PyObj.decEqList xs ys with
      | .isTrue h => .isTrue (by rw [h])
      | .isFalse h => .isFalse (by simp [h])

def PyObj.decEqList : (a b : List PyObj) → Decidable (a = b)
  | [], [] => .isTrue rfl
  | [], _ :: _ => .isFalse nofun
  | _ :: _, [] => .isFalse nofun
  | x :: xs, y :: ys =>
      match PyObj.decEq x y with
      | .isTrue h1 =>
        match PyObj.decEqList xs ys with
        | .isTrue h2 => .isTrue (by rw [h1, h2])
        | .isFalse h2 => .isFalse (by simp [h2])
      | .isFalse h1 => .isFalse (by simp [h1])

end

instance : DecidableEq PyObj := PyObj.decEq

/-- A JSON document (as produced by `json.load`): object keys are strings,
in insertion order. -/
inductive JValue where
  | null
  | bool (b : Bool)
  | num (q : ℚ)
  | str (s : String)
  | arr (xs : List JValue)
  | obj (fields : List (String × JValue))
  deriving Repr

mutual

def JValue.decEq : (a b : JValue) → Decidable (a = b)
  | .null, .null => .isTrue rfl
  | .null, .bool _ => .isFalse nofun
  | .null, .num _ => .isFalse nofun
  | .null, .str _ => .isFalse nofun
  | .null, .arr _ => .isFalse nofun
  | .null, .obj _ => .isFalse nofun
  | .bool _, .null => .isFalse nofun
  | .bool a, .bool b =>
      if h : a = b then .isTrue (by rw [h]) else .isFalse (by simp [h])
  | .bool _, .num _ => .isFalse nofun
  | .bool _, .str _ => .isFalse nofun
  | .bool _, .arr _ => .isFalse nofun
  | .bool _, .obj _ => .isFalse nofun
  | .num _, .null => .isFalse nofun
  | .num _, .bool _ => .isFalse nofun
  | .num a, .num b =>
      if h : a = b then .isTrue (by rw [h]) else .isFalse (by simp [h])
  | .num _, .str _ => .isFalse nofun
  | .num _, .arr _ => .isFalse nofun
  | .num _, .obj _ => .isFalse nofun
  | .str _, .null => .isFalse nofun
  | .str _, .bool _ => .isFalse nofun
  | .str _, .num _ => .isFalse nofun
  | .str a, .str b =>
      if h : a = b then .isTrue (by rw [h]) else .isFalse (by simp [h])
  | .str _, .arr _ => .isFalse nofun
  | .str _, .obj _ => .isFalse nofun
  | .arr _, .null => .isFalse nofun
  | .arr _, .bool _ => .isFalse nofun
  | .arr _, .num _ => .isFalse nofun
  | .arr _, .str _ => .isFalse nofun
  | .arr xs, .arr ys =>
      match JValue.decEqList xs ys with
      | .isTrue h => .isTrue (by rw [h])
      | .isFalse h => .isFalse (by simp [h])
  | .arr _, .obj _ => .isFalse nofun
  | .obj _, .null => .isFalse nofun
  | .obj _, .bool _ => .isFalse nofun
  | .obj _, .num _ => .isFalse nofun
  | .obj _, .str _ => .isFalse nofun
  | .obj _, .arr _ => .isFalse nofun
  | .obj xs, .obj ys =>
      match JValue.decEqFields xs ys with
      | .isTrue h => .isTrue (by rw [h])
      | .isFalse h => .isFalse (by simp [h])

def JValue.decEqList : (a b : List JValue) → Decidable (a = b)
  | [], [] => .isTrue rfl
  | [], _ :: _ => .isFalse nofun
  | _ :: _, [] => .isFalse nofun
  | x :: xs, y :: ys =>
      match JValue.decEq x y with
      | .isTrue h1 =>
        match JValue.decEqList xs ys with
        | .isTrue h2 => .isTrue (by rw [h1, h2])
        | .isFalse h2 => .isFalse (by simp [h2])
      | .isFalse h1 => .isFalse (by simp [h1])

def JValue.decEqFields : (a b : List (String × JValue)) → Decidable (a = b)
  | [], [] => .isTrue rfl
  | [], _ :: _ => .isFalse nofun
  | _ :: _, [] => .isFalse nofun
  | (k1, v1) :: xs, (k2, v2) :: ys =>
      if hk : k1 = k2 then
        match JValue.decEq v1 v2 with
        | .isTrue h1 =>
          match JValue.decEqFields xs ys with
          | .isTrue h2 => .isTrue (by rw [hk, h1, h2])
          | .isFalse h2 => .isFalse (by simp [h2])
        | .isFalse h1 => .isFalse (by simp [h1])
      else .isFalse (by simp [hk])

end

instance : DecidableEq JValue := JValue.decEq

/-! ## Variable-name normalization (`ParameterMapper.replace_variables`)

The source applies `re.sub(r"\bx_s\b", "x", value)` and then
`re.sub(r"\bc_e\b", "x", value)`.  Both patterns are three-character
literals delimited by word boundaries, replaced by the single character
`x`.  We embed the scan of `re.sub` directly: left-to-right over the
characters, tracking whether the previous character was a word character
(Python's `\w`; restricted here to ASCII alphanumerics and `_`, which
covers the formula texts the mapper handles). -/

/-- Word character (`\w`), ASCII fragment. -/
def wordChar (c : Char) : Bool := c.isAlphanum || c = '_'

/-- Word boundary after the match: end of input or a non-word character. -/
def bdryOk : List Char → Bool
  | [] => true
  | d :: _ => !wordChar d

/-- Does the three-character pattern `a b c` match at the head of the list,
with a word boundary on both sides?  `prev` records whether the character
immediately before the current position is a word character. -/
def matchAt (a b c : Char) (prev : Bool) : List Char → Bool
  | x :: y :: z :: rest => !prev && (x == a) && (y == b) && (z == c) && bdryOk rest
  | _ => false

/-- One `re.sub` pass for a word-bounded three-character literal pattern
replaced by `'x'`: scan left to right, replacing non-overlapping matches
and continuing after each match (as `re.sub` does). -/
def sub3 (a b c : Char) : Bool → List Char → List Char
  | _, [] => []
  | prev, x :: y :: z :: rest =>
      if matchAt a b c prev (x :: y :: z :: rest) then
        'x' :: sub3 a b c true rest
      else
        x :: sub3 a b c (wordChar x) (y :: z :: rest)
  | _, [x, y] =>
      x :: sub3 a b c (wordChar x) [y]
  | _, [x] =>
      x :: sub3 a b c (wordChar x) []

/-- Is there a word-bounded occurrence of the pattern anywhere (scanning
with the same boundary bookkeeping as `sub3`)? -/
def hasOcc (a b c : Char) : Bool → List Char → Bool
  | _, [] => false
  | prev, x :: xs => matchAt a b c prev (x :: xs) || hasOcc a b c (wordChar x) xs

/-- `ParameterMapper.replace_variables` on a string value: rewrite
word-bounded `x_s` to `x`, then word-bounded `c_e` to `x`.  (The
`isinstance(value, str)` guard is handled at the call sites, which only
call this on strings.) -/
def replaceVariables (s : String) : String :=
  String.mk (sub3 'c' '_' 'e' false (sub3 'x' '_' 's' false s.data))

/-! ## Python literal and number parsing

`OntologyParser.parse_key` calls `ast.literal_eval` on ontology path
literals such as `('Parameterisation', 'Cell', 0)`.  We embed a recursive
descent parser for the literal sublanguage that path expressions use:
single- or double-quoted strings, signed decimal integers, tuples (including
the `(expr)` grouping and `(expr,)` one-tuple forms) and lists, with
Python's whitespace and trailing-comma rules.  Other literal forms
(floats, `None`, booleans, dicts, sets) are treated as parse failures. -/

/-- ASCII whitespace. -/
def isWs (c : Char) : Bool := c = ' ' || c = '\t' || c = '\n' || c = '\r'

/-- Python `str.strip()` (ASCII whitespace fragment). -/
def pyStrip (s : String) : String :=
  String.mk (((s.data.dropWhile isWs).reverse.dropWhile isWs).reverse)

def skipWs : List Char → List Char
  | [] => []
  | c :: cs => if isWs c then skipWs cs else c :: cs

/-- Decimal digit scan with Python's underscore grouping (`1_000`): digits,
optionally separated by single underscores.  Returns the digits in order
and the unconsumed rest; the result is `[]` if the input does not start
with a digit. -/
def digitsLoop : List Char → List Char × List Char
  | c :: '_' :: d :: cs' =>
      if c.isDigit then
        if d.isDigit then
          let (ds, r) := digitsLoop (d :: cs')
          (c :: ds, r)
        else ([c], '_' :: d :: cs')
      else ([], c :: '_' :: d :: cs')
  | c :: cs =>
      if c.isDigit then
        let (ds, r) := digitsLoop cs
        (c :: ds, r)
      else ([], c :: cs)
  | [] => ([], [])

def natFromDigits (ds : List Char) : Nat :=
  ds.foldl (fun acc c => 10 * acc + (c.toNat - '0'.toNat)) 0

/-- Body of a quoted string literal, after the opening quote `q`.  Handles
the backslash escapes `\\ \' \" \n \t \r`; an unrecognized escape keeps
the backslash (as Python does).  A raw newline ends the literal with an
error. -/
def parseStrBody (q : Char) : List Char → Option (List Char × List Char)
  | [] => none
  | c :: cs =>
      if c = q then some ([], cs)
      else if c = '\n' then none
      else if c = '\\' then
        match cs with
        | [] => none
        | e :: cs' =>
            let pre : List Char :=
              if e = 'n' then ['\n']
              else if e = 't' then ['\t']
              else if e = 'r' then ['\r']
              else if e = '\\' then ['\\']
              else if e = '\'' then ['\'']
              else if e = '"' then ['"']
              else ['\\', e]
            match parseStrBody q cs' with
            | some (s, r) => some (pre ++ s, r)
            | none => none
      else
        match parseStrBody q cs with
        | some (s, r) => some (c :: s, r)
        | none => none

/-- Signed decimal integer literal (Python 3 rules: no leading zeros on a
non-zero number; whitespace may follow a unary sign). -/
def parseIntLit (cs : List Char) : Option (PyObj × List Char) :=
  let (neg, cs1) :=
    match cs with
    | '-' :: r => (true, skipWs r)
    | '+' :: r => (false, skipWs r)
    | _ => (false, cs)
  let (ds, rest) := digitsLoop cs1
  match ds with
  | [] => none
  | d :: ds' =>
      if d = '0' && ds'.any (fun c => c ≠ '0') then none
      else
        let n : Int := natFromDigits (d :: ds')
        some (.int (if neg then -n else n), rest)

mutual

/-- One literal value: string, int, tuple or list. -/
def parsePyVal : Nat → List Char → Option (PyObj × List Char)
  | 0, _ => none
  | fuel + 1, cs =>
      match skipWs cs with
      | [] => none
      | c :: rest =>
          if c = '\'' || c = '"' then
            match parseStrBody c rest with
            | some (s, r) => some (.str (String.mk s), r)
            | none => none
          else if c = '(' then parsePyTuple fuel rest
          else if c = '[' then parsePyList fuel [] rest
          else parseIntLit (c :: rest)

/-- After an opening `(`: `()` is the empty tuple, `(v)` is grouping (the
value itself, not a tuple), `(v,)` and `(v, w, ...)` are tuples. -/
def parsePyTuple : Nat → List Char → Option (PyObj × List Char)
  | 0, _ => none
  | fuel + 1, cs =>
      match skipWs cs with
      | ')' :: r => some (.tuple [], r)
      | cs' =>
          match parsePyVal fuel cs' with
          | none => none
          | some (v, r1) =>
              match skipWs r1 with
              | ')' :: r2 => some (v, r2)
              | ',' :: r2 => parsePyTupleRest fuel [v] r2
              | _ => none

/-- Further tuple items after the first comma. -/
def parsePyTupleRest : Nat → List PyObj → List Char → Option (PyObj × List Char)
  | 0, _, _ => none
  | fuel + 1, acc, cs =>
      match skipWs cs with
      | ')' :: r => some (.tuple acc.reverse, r)
      | cs' =>
          match parsePyVal fuel cs' with
          | none => none
          | some (v, r1) =>
              match skipWs r1 with
              | ')' :: r2 => some (.tuple (v :: acc).reverse, r2)
              | ',' :: r2 => parsePyTupleRest fuel (v :: acc) r2
              | _ => none

/-- List items after the opening `[`. -/
def parsePyList : Nat → List PyObj → List Char → Option (PyObj × List Char)
  | 0, _, _ => none
  | fuel + 1, acc, cs =>
      match skipWs cs with
      | ']' :: r => some (.list acc.reverse, r)
      | cs' =>
          match parsePyVal fuel cs' with
          | none => none
          | some (v, r1) =>
              match skipWs r1 with
              | ']' :: r2 => some (.list (v :: acc).reverse, r2)
              | ',' :: r2 => parsePyList fuel (v :: acc) r2
              | _ => none

end

/-- `ast.literal_eval` on a path literal (the sublanguage above).  The fuel
is generous enough for any input of the given length. -/
def pyLiteralEval (s : String) : Option PyObj :=
  match parsePyVal (4 * s.length + 16) s.data with
  | some (v, rest) => if skipWs rest = [] then some v else none
  | none => none

/-- `OntologyParser.parse_key`: `ast.literal_eval`, with parse errors
recovered as the empty list (`return []`), after a diagnostic print. -/
def parseKey (s : String) : PyObj :=
  match pyLiteralEval s with
  | some v => v
  | none => .list []

/-- Python truthiness for the objects `parse_key` can return. -/
def pyTruthy : PyObj → Bool
  | .int n => n != 0
  | .str s => s ≠ ""
  | .tuple xs => !xs.isEmpty
  | .list xs => !xs.isEmpty

/-- Python `tuple(x)`: sequences yield their items, strings their
characters; `tuple(<int>)` raises `TypeError` (uncaught in
`get_mappings`). -/
def pyTupleOf : PyObj → Except PyErr (List PyObj)
  | .tuple xs => .ok xs
  | .list xs => .ok xs
  | .str s => .ok (s.data.map (fun c => .str (String.mk [c])))
  | .int _ => .error .typeError

/-- Runtime `int()` applied to a string (as used for list indices):
optional sign and decimal digits, leading zeros allowed, surrounding
whitespace stripped by `int` itself. -/
def parseIntPy (s : String) : Option Int :=
  let cs := (pyStrip s).data
  let (neg, cs1) :=
    match cs with
    | '-' :: r => (true, r)
    | '+' :: r => (false, r)
    | _ => (false, cs)
  match digitsLoop cs1 with
  | ([], _) => none
  | (ds, rest) =>
      if rest.isEmpty then
        let n : Int := natFromDigits ds
        some (if neg then -n else n)
      else none

/-- Runtime `float()` applied to a string: sign, decimal mantissa with an
optional point, optional exponent.  `float` also accepts `inf`/`nan`
spellings; those have no finite rational value and are modelled as parse
failures here (they do not occur in battery parameter documents). -/
def parseFloatPy (s : String) : Option ℚ :=
  let cs := (pyStrip s).data
  let (neg, cs1) :=
    match cs with
    | '-' :: r => (true, r)
    | '+' :: r => (false, r)
    | _ => (false, cs)
  let (ipart, r1) := digitsLoop cs1
  let (fpart, r2) :=
    match r1 with
    | '.' :: r => digitsLoop r
    | _ => ([], r1)
  if ipart.isEmpty && fpart.isEmpty then none
  else
    let m := natFromDigits (ipart ++ fpart)
    let flen := fpart.length
    let mkVal (ex : Nat) (eneg : Bool) : ℚ :=
      let n : Int := if neg then -(m : Int) else (m : Int)
      if eneg then mkRat n (10 ^ (flen + ex))
      else mkRat (n * ((10 ^ ex : Nat) : Int)) (10 ^ flen)
    match r2 with
    | [] => some (mkVal 0 false)
    | e :: r3 =>
        if e = 'e' || e = 'E' then
          let (eneg, r4) :=
            match r3 with
            | '-' :: r => (true, r)
            | '+' :: r => (false, r)
            | _ => (false, r3)
          match digitsLoop r4 with
          | ([], _) => none
          | (eds, r5) => if r5.isEmpty then some (mkVal (natFromDigits eds) eneg) else none
        else none

/-! ## Ontology mapping index (`OntologyParser`) -/

/-- The already-parsed RDF graph, as the core consumes it: the triple list
(in store iteration order) plus the namespace manager's compact-identifier
resolver (`normalizeUri`), which is external rdflib behaviour and is
therefore a component of the graph value. -/
structure RdfGraph where
  triples : List (String × String × String)
  curie : String → String

def bpxPredicate : String :=
  "https://w3id.org/emmo/domain/battery-model-lithium-ion#bmli_0a5b99ee_995b_4899_a79b_925a4086da37"

def cidemodPredicate : String :=
  "https://w3id.org/emmo/domain/battery-model-lithium-ion#bmli_1b718841_5d72_4071_bb71_fc4a754f5e30"

def battmoPredicate : String :=
  "https://w3id.org/emmo/domain/battery-model-lithium-ion#bmli_e5e86474_8623_48ea_a1cf_502bdb10aa14"

/-- `OntologyParser.key_map`: the static format table.  `battmo.m` and
`battmo.jl` share one predicate. -/
def keyMap : String → Option String := fun t =>
  if t = "bpx" then some bpxPredicate
  else if t = "cidemod" then some cidemodPredicate
  else if t = "battmo.m" then some battmoPredicate
  else if t = "battmo.jl" then some battmoPredicate
  else none

/-- `graph.subjects()`: the subject of every triple, duplicates included. -/
def graphSubjects (g : RdfGraph) : List String := g.triples.map (fun t => t.1)

/-- `graph.predicate_objects(s)`. -/
def predicateObjects (g : RdfGraph) (s : String) : List (String × String) :=
  g.triples.filterMap (fun t => if t.1 = s then some (t.2.1, t.2.2) else none)

/-- The per-subject scan of `get_mappings`: walk the subject's
`(predicate, object)` pairs, keeping the last parsed input-format and
output-format annotations (`if p == input_key ... elif p == output_key`). -/
def scanSubject (ik ok : String) (pos : List (String × String)) :
    Option PyObj × Option PyObj :=
  pos.foldl
    (fun acc po =>
      if po.1 = ik then (some (parseKey po.2), acc.2)
      else if po.1 = ok then (acc.1, some (parseKey po.2))
      else acc)
    (none, none)

/-- Truthiness of the scanned value (`None` is falsy). -/
def truthyOpt : Option PyObj → Bool
  | none => false
  | some o => pyTruthy o

/-- Mapping index entries, in dictionary insertion order. -/
abbrev Mappings := List (List PyObj × List PyObj)

/-- Python dict insertion: overwrite in place if the key exists, else
append. -/
def insertMapping : Mappings → List PyObj → List PyObj → Mappings
  | [], k, v => [(k, v)]
  | (k0, v0) :: rest, k, v =>
      if k0 = k then (k, v) :: rest else (k0, v0) :: insertMapping rest k v

/-- The subject loop of `get_mappings`. -/
def gmLoop (g : RdfGraph) (ik ok : String) : List String → Mappings → Except PyErr Mappings
  | [], m => .ok m
  | s :: rest, m =>
      let sc := scanSubject ik ok (predicateObjects g s)
      if truthyOpt sc.1 && truthyOpt sc.2 then
        match sc.1, sc.2 with
        | some iv, some ov => do
            let ti ← pyTupleOf iv
            let tv ← pyTupleOf ov
            gmLoop g ik ok rest (insertMapping m ti tv)
        | _, _ => gmLoop g ik ok rest m
      else gmLoop g ik ok rest m

/-- `OntologyParser.get_mappings`: resolve the two format identifiers in
the static table (`ValueError` on an unknown or falsy predicate), then
build the mapping index over all graph subjects. -/
def getMappings (g : RdfGraph) (it ot : String) : Except PyErr Mappings :=
  match keyMap it, keyMap ot with
  | some ik, some ok =>
      if ik = "" || ok = "" then
        .error (.valueError ("Invalid input or output type: " ++ it ++ ", " ++ ot))
      else gmLoop g ik ok (graphSubjects g) []
  | _, _ => .error (.valueError ("Invalid input or output type: " ++ it ++ ", " ++ ot))

/-! ## Heap model for Python reference semantics

`ParameterMapper.map_parameters` takes `output_data = self.template.copy()`
— a *shallow* `dict.copy()` — and `set_value_from_path` mutates nested
objects in place.  To state claims about what happens to the original
template object we make the object graph explicit: a `Store` maps
addresses to nodes, `dict`/`list` nodes hold addresses of their element
objects, and allocation uses a bump counter. -/

/-- A Python object in the heap.  Mapping keys are `PyObj` because the
embedded code can install int keys (`data[final_key] = value` after the
digit-to-`int` conversion) next to the string keys coming from JSON. -/
inductive Node where
  | null
  | bool (b : Bool)
  | num (q : ℚ)
  | str (s : String)
  | arr (elems : List Nat)
  | obj (fields : List (PyObj × Nat))
  deriving DecidableEq, Repr

structure Store where
  heap : Nat → Option Node
  next : Nat

def Store.alloc (st : Store) (n : Node) : Store × Nat :=
  ({ heap := fun a => if a = st.next then some n else st.heap a,
     next := st.next + 1 }, st.next)

def Store.setNode (st : Store) (a : Nat) (n : Node) : Store :=
  { st with heap := fun x => if x = a then some n else st.heap x }

/-- Addresses a node refers to. -/
def Node.refs : Node → List Nat
  | .arr xs => xs
  | .obj fs => fs.map (fun kv => kv.2)
  | _ => []

/-- Read back the JSON value reachable from an address (fuel-bounded; any
store reachable from loaded JSON documents is acyclic and needs at most
`st.next` steps).  Mapping keys must be strings to yield a `JValue`. -/
def reifyF : Nat → Store → Nat → Option JValue
  | 0, _, _ => none
  | fuel + 1, st, a =>
      match st.heap a with
      | none => none
      | some .null => some .null
      | some (.bool b) => some (.bool b)
      | some (.num q) => some (.num q)
      | some (.str s) => some (.str s)
      | some (.arr xs) => (xs.mapM (reifyF fuel st)).map .arr
      | some (.obj fs) =>
          (fs.mapM (fun (kv : PyObj × Nat) =>
            match kv.1 with
            | .str ks => (reifyF fuel st kv.2).map (fun v => (ks, v))
            | _ => none)).map .obj

/-- Association lookup in a mapping node (Python `data[key]` success
cases). -/
def lookupField : List (PyObj × Nat) → PyObj → Option Nat
  | [], _ => none
  | (k, a) :: rest, key => if k = key then some a else lookupField rest key

/-- Python dict assignment: overwrite in place if the key exists, else
append (insertion order). -/
def setField : List (PyObj × Nat) → PyObj → Nat → List (PyObj × Nat)
  | [], key, a => [(key, a)]
  | (k, v) :: rest, key, a =>
      if k = key then (key, a) :: rest else (k, v) :: setField rest key a

/-- Python list indexing, including negative indices. -/
def pyListIdx (xs : List Nat) (k : Int) : Option Nat :=
  if 0 ≤ k ∧ k < (xs.length : Int) then xs.get? k.toNat
  else if -(xs.length : Int) ≤ k ∧ k < 0 then xs.get? (xs.length - (-k).toNat)
  else none

/-- Python in-range list index assignment (assignment never extends). -/
def listSetIdx (xs : List Nat) (k : Int) (va : Nat) : Option (List Nat) :=
  if 0 ≤ k ∧ k < (xs.length : Int) then some (xs.set k.toNat va)
  else if -(xs.length : Int) ≤ k ∧ k < 0 then some (xs.set (xs.length - (-k).toNat) va)
  else none

/-- Python string indexing, including negative indices. -/
def pyStrIdx (s : String) (k : Int) : Option Char :=
  if 0 ≤ k ∧ k < (s.data.length : Int) then s.data.get? k.toNat
  else if -(s.data.length : Int) ≤ k ∧ k < 0 then s.data.get? (s.data.length - (-k).toNat)
  else none

/-- `key.strip()` when the key is a string. -/
def stripKey : PyObj → PyObj
  | .str s => .str (pyStrip s)
  | k => k

/-- `int(key)` as used for list indices: ints pass through, strings are
parsed (`ValueError` on failure), other shapes raise `TypeError`; both
failures are caught by the surrounding `try`, hence `none`. -/
def pyIntOfKey : PyObj → Option Int
  | .int n => some n
  | .str s => parseIntPy s
  | _ => none

/-- Python `str.isdigit()` (ASCII fragment). -/
def isDigitStr (s : String) : Bool := !s.isEmpty && s.data.all Char.isDigit

/-! ## `ParameterMapper.get_value_from_path` -/

/-- The read walk.  All caught exceptions (`KeyError`, `IndexError`,
`ValueError`, `TypeError`) return `None`, as does the explicit
`else: return None` for scalars.  A JSON `null` loads as the Python
`None` object, so a walk ending on a null value returns the very same
observable `None`; both are `none` here (this models the caller's
`if value is not None` test). -/
def getValueFromPathH (st : Store) : Nat → List PyObj → Option Nat
  | a, [] =>
      match st.heap a with
      | some .null => none
      | some _ => some a
      | none => none
  | a, k :: rest =>
      match st.heap a with
      | some (.obj fs) =>
          match lookupField fs (stripKey k) with
          | some b => getValueFromPathH st b rest
          | none => none
      | some (.arr xs) =>
          match pyIntOfKey (stripKey k) with
          | some n =>
              match pyListIdx xs n with
              | some b => getValueFromPathH st b rest
              | none => none
          | none => none
      | _ => none

/-! ## Generic text rendering (`str(...)` on mapped values) -/

/-- Python float `repr` uses the shortest round-tripping decimal form;
that has no exact counterpart on `ℚ`, so non-integers are rendered as a
fraction here.  This rendering is only reached by the generic
`str(func_obj)`/`str(value)` fallbacks, which the claims do not exercise
on numbers. -/
def pyReprNum (q : ℚ) : String :=
  if q.den = 1 then toString q.num else toString q.num ++ "/" ++ toString q.den

/-- Python `repr` of a string: single quotes, double quotes when the text
contains a single quote and no double quote; common escapes only. -/
def pyReprStrLit (s : String) : String :=
  let q : Char := if s.data.contains '\'' && !(s.data.contains '"') then '"' else '\''
  let esc : Char → String := fun ch =>
    if ch = '\\' then "\\\\"
    else if ch = q then String.mk ['\\', q]
    else if ch = '\n' then "\\n"
    else if ch = '\r' then "\\r"
    else if ch = '\t' then "\\t"
    else String.mk [ch]
  String.mk [q] ++ String.join (s.data.map esc) ++ String.mk [q]

mutual

/-- Python `repr` of a JSON value. -/
def pyReprJ : JValue → String
  | .null => "None"
  | .bool true => "True"
  | .bool false => "False"
  | .num q => pyReprNum q
  | .str s => pyReprStrLit s
  | .arr xs => "[" ++ String.intercalate ", " (pyReprJList xs) ++ "]"
  | .obj fs => "\x7b" ++ String.intercalate ", " (pyReprJFields fs) ++ "\x7d"

def pyReprJList : List JValue → List String
  | [] => []
  | v :: rest => pyReprJ v :: pyReprJList rest

def pyReprJFields : List (String × JValue) → List String
  | [] => []
  | (k, v) :: rest => (pyReprStrLit k ++ ": " ++ pyReprJ v) :: pyReprJFields rest

end

/-- Python `str(...)` of a JSON value (strings render bare, containers as
`repr`). -/
def pyStrJ : JValue → String
  | .str s => s
  | v => pyReprJ v

/-- `str(...)` of a heap object, via readback. -/
def pyStrOfAddr (st : Store) (a : Nat) : String :=
  match reifyF st.next st a with
  | some v => pyStrJ v
  | none => "..."

/-! ## `ParameterMapper.convert_value` and its two helpers -/

/-- The `func_params` table of `_string_expr_to_battmo_func`, in source
(dict insertion) order. -/
def funcParams : List (String × List String) :=
  [("openCircuitPotential", ["stoichiometry"]),
   ("ionicConductivity", ["concentration", "temperature"]),
   ("diffusionCoefficient", ["concentration", "temperature"])]

/-- `func_name in output_path`: list membership by equality against a
string. -/
def hasComponent (okeys : List PyObj) (name : String) : Bool :=
  okeys.any fun k =>
    match k with
    | .str s => s == name
    | _ => false

def allocStrs (st : Store) : List String → Store × List Nat
  | [] => (st, [])
  | s :: rest =>
      let (st1, a) := st.alloc (.str s)
      let (st2, rest1) := allocStrs st1 rest
      (st2, a :: rest1)

/-- `ParameterMapper._string_expr_to_battmo_func`: wrap the expression
object at `ea` into a BattMo function object when the output path contains
one of the three function-valued components (checked in table order),
otherwise hand the expression back unchanged. -/
def stringExprToBattmoFuncH (st : Store) (ea : Nat) (okeys : List PyObj) : Store × Nat :=
  match funcParams.find? (fun p => hasComponent okeys p.1) with
  | some p =>
      let (st1, fa) := st.alloc (.str "string expression")
      let (st2, argAddrs) := allocStrs st1 p.2
      let (st3, la) := st2.alloc (.arr argAddrs)
      st3.alloc (.obj [(.str "functionFormat", fa),
                       (.str "argumentList", la),
                       (.str "expression", ea)])
  | none => (st, ea)

/-- `ParameterMapper._battmo_func_to_string_expr`. -/
def battmoFuncToStringExprH (st : Store) (va : Nat) : Store × Nat :=
  match st.heap va with
  | some (.obj fs) =>
      match lookupField fs (.str "expression") with
      | some ea => (st, ea)
      | none =>
          if (lookupField fs (.str "functionName")).isSome
              || (lookupField fs (.str "functionname")).isSome then
            let nameAddr :=
              match lookupField fs (.str "functionName") with
              | some a => some a
              | none => lookupField fs (.str "functionname")
            let nm :=
              match nameAddr with
              | some a => pyStrOfAddr st a
              | none => ""
            st.alloc (.str ("# Named function: " ++ nm ++ " (requires manual conversion)"))
          else st.alloc (.str (pyStrOfAddr st va))
  | some _ => st.alloc (.str (pyStrOfAddr st va))
  | none => (st, va)

/-- `ParameterMapper.convert_value`.  The `input_key` parameter is unused
in the source as well. -/
def convertH (st : Store) (va : Nat) (_ikeys okeys : List PyObj) (outputType : String) :
    Store × Nat :=
  match st.heap va with
  | some (.str s) =>
      if outputType = "battmo.m" || outputType = "battmo.jl" then
        let (st1, ea) := st.alloc (.str (replaceVariables s))
        stringExprToBattmoFuncH st1 ea okeys
      else if outputType = "bpx" then
        st.alloc (.str (replaceVariables s))
      else (st, va)
  | some (.obj _) =>
      if outputType = "bpx" then battmoFuncToStringExprH st va else (st, va)
  | _ => (st, va)

/-! ## `ParameterMapper.set_value_from_path` -/

/-- `while len(data) <= key: data.append({})` — append freshly allocated
empty mappings until the list is long enough. -/
def appendEmpties (st : Store) (xs : List Nat) : Nat → Store × List Nat
  | 0 => (st, xs)
  | n + 1 =>
      let (st1, a) := st.alloc (.obj [])
      appendEmpties st1 (xs ++ [a]) n

def extendList (st : Store) (xs : List Nat) (tgt : Nat) : Store × List Nat :=
  if xs.length ≤ tgt then appendEmpties st xs (tgt + 1 - xs.length) else (st, xs)

/-- The final `data[final_key] = value` step (after the digit-string to
`int` conversion of the key). -/
def setFinal (st : Store) (cur : Nat) (k : PyObj) (va : Nat) : Store × Option PyErr :=
  let fk : PyObj :=
    match stripKey k with
    | .int n => .int n
    | .str s => if isDigitStr s then .int (natFromDigits s.data) else .str s
    | other => other
  match st.heap cur with
  | some (.obj fs) =>
      match fk with
      | .list _ => (st, some .typeError)
      | _ => (st.setNode cur (.obj (setField fs fk va)), none)
  | some (.arr xs) =>
      match fk with
      | .int n =>
          match listSetIdx xs n va with
          | some xs1 => (st.setNode cur (.arr xs1), none)
          | none => (st, some .indexError)
      | _ => (st, some .typeError)
  | some _ => (st, some .typeError)
  | none => (st, some .typeError)

/-- The walk of `set_value_from_path`, threading the store (mutations made
before an exception persist) and returning the exception, if any, for the
surrounding `try` to dispatch on.

For an intermediate digit-like component the source runs
`while len(data) <= key: data.append({})`; when `data` is a mapping or a
string that `append` raises `AttributeError`, which is *not* in the caught
tuple. -/
def setWalk (st : Store) (cur : Nat) (keys : List PyObj) (va : Nat) : Store × Option PyErr :=
  match keys with
  | [] => (st, some .indexError)
  | [k] => setFinal st cur k va
  | k :: rest =>
      let step := fun (ki : Int) =>
        match st.heap cur with
        | some (.arr xs) =>
            let exd := if 0 ≤ ki then extendList st xs ki.toNat else (st, xs)
            let st2 := exd.1.setNode cur (.arr exd.2)
            match pyListIdx exd.2 ki with
            | some b => setWalk st2 b rest va
            | none => (st2, some .indexError)
        | some (.obj fs) =>
            if (fs.length : Int) ≤ ki then (st, some .attributeError)
            else
              match lookupField fs (.int ki) with
              | some b => setWalk st b rest va
              | none => (st, some .keyError)
        | some (.str s) =>
            if (s.data.length : Int) ≤ ki then (st, some .attributeError)
            else
              match pyStrIdx s ki with
              | some ch =>
                  let al := st.alloc (.str (String.mk [ch]))
                  setWalk al.1 al.2 rest va
              | none => (st, some .indexError)
        | some _ => (st, some .typeError)
        | none => (st, some .typeError)
      match stripKey k with
      | .int n => step n
      | .str s =>
          if isDigitStr s then step (natFromDigits s.data)
          else
            match st.heap cur with
            | some (.obj fs) =>
                match lookupField fs (.str s) with
                | some b => setWalk st b rest va
                | none =>
                    let al := st.alloc (.obj [])
                    let st2 := al.1.setNode cur (.obj (setField fs (.str s) al.2))
                    setWalk st2 al.2 rest va
            | some _ => (st, some .typeError)
            | none => (st, some .typeError)
      | _ => (st, some .attributeError)

/-- `ParameterMapper.set_value_from_path`: the `try` catches
`KeyError, IndexError, ValueError, TypeError` (diagnostic print, write
dropped, store as mutated so far kept); `AttributeError` propagates. -/
def setValueFromPathH (st : Store) (root : Nat) (keys : List PyObj) (va : Nat) :
    Except PyErr Store :=
  match setWalk st root keys va with
  | (st1, none) => .ok st1
  | (st1, some e) =>
      match e with
      | .attributeError => .error .attributeError
      | _ => .ok st1

/-! ## `ParameterMapper.map_parameters` and its bookkeeping -/

/-- `self.template.copy()`: a shallow copy — a fresh top-level container
with the same element addresses.  Scalars have no `.copy()`
(`AttributeError`, uncaught). -/
def copyShallow (st : Store) (a : Nat) : Except PyErr (Store × Nat) :=
  match st.heap a with
  | some (.obj fs) => .ok (st.alloc (.obj fs))
  | some (.arr xs) => .ok (st.alloc (.arr xs))
  | _ => .error .attributeError

/-- The string built by `remove_default_from_used`. -/
def defaultPathString (keys : List PyObj) : String :=
  keys.foldl
    (fun acc k =>
      match k with
      | .str s => acc ++ "." ++ pyStrip s
      | .int n => acc ++ "[" ++ toString n ++ "]"
      | _ => acc)
    "Parameterisation"

/-- `self.defaults_used.discard(path)` (the defaults come from a Python
set, which has no duplicates, so a filter removes at most one element). -/
def removeDefaultFromUsed (defaults : List String) (keys : List PyObj) : List String :=
  defaults.filter (fun p => p ≠ defaultPathString keys)

/-- `needle in hay` on Python strings: substring containment. -/
def listInfix : List Char → List Char → Bool
  | needle, [] => needle.isEmpty
  | needle, c :: rest => needle.isPrefixOf (c :: rest) || listInfix needle rest

def isSubstringOf (needle hay : String) : Bool :=
  listInfix needle.data hay.data

/-- `ParameterMapper.remove_high_level_defaults`. -/
def removeHighLevelDefaults (defaults : List String) : List String :=
  defaults.filter
    (fun p => !(isSubstringOf "Parameterisation" p || isSubstringOf "Header" p))

def bpxDescription (inputUrl : String) : String :=
  "This data set was automatically generated from " ++ inputUrl ++ ". Please check carefully."

/-- `ParameterMapper.set_bpx_header`: overwrite `Header` with the fixed
metadata block and drop any `Validation` key.  Runs outside any `try`, so
a non-mapping document raises `TypeError`. -/
def setBpxHeaderH (st : Store) (a : Nat) (inputUrl : String) : Except PyErr Store :=
  match st.heap a with
  | some (.obj fs) =>
      let (st1, bv) := st.alloc (.num (mkRat 1 10))
      let (st2, tv) := st1.alloc (.str "An autoconverted parameter set using BatteryModelMapper")
      let (st3, dv) := st2.alloc (.str (bpxDescription inputUrl))
      let (st4, mv) := st3.alloc (.str "DFN")
      let (st5, hv) := st4.alloc (.obj [(.str "BPX", bv), (.str "Title", tv),
                                        (.str "Description", dv), (.str "Model", mv)])
      let fs1 := setField fs (.str "Header") hv
      let fs2 := fs1.filter (fun kv => kv.1 ≠ PyObj.str "Validation")
      .ok (st5.setNode a (.obj fs2))
  | some _ => .error .typeError
  | none => .error .typeError

/-- The entry loop of `map_parameters`: read, convert, write, update the
defaults bookkeeping; a `None` lookup skips the entry entirely. -/
def mapLoop (st : Store) (outA ia : Nat) (ms : Mappings) (outputType : String)
    (defaults : List String) : Except PyErr (Store × List String) :=
  match ms with
  | [] => .ok (st, defaults)
  | (ik, ok) :: rest =>
      match getValueFromPathH st ia ik with
      | none => mapLoop st outA ia rest outputType defaults
      | some va =>
          let cv := convertH st va ik ok outputType
          match setValueFromPathH cv.1 outA ok cv.2 with
          | .error e => .error e
          | .ok st2 => mapLoop st2 outA ia rest outputType (removeDefaultFromUsed defaults ok)

/-- `ParameterMapper.map_parameters`: shallow-copy the template, run all
mapping entries, write the BPX header when the output format is `bpx`,
filter the defaults bookkeeping, and return the working copy.  `defaults0`
is `self.defaults_used` as initialized from the template at construction
time. -/
def mapParametersH (st : Store) (ms : Mappings) (templateA inputA : Nat)
    (inputUrl outputType : String) (defaults0 : List String) :
    Except PyErr (Store × Nat × List String) :=
  match copyShallow st templateA with
  | .error e => .error e
  | .ok (st1, outA) =>
      match mapLoop st1 outA inputA ms outputType defaults0 with
      | .error e => .error e
      | .ok (st2, d2) =>
          match (if outputType = "bpx" then setBpxHeaderH st2 outA inputUrl else .ok st2) with
          | .error e => .error e
          | .ok st3 => .ok (st3, outA, removeHighLevelDefaults d2)

/-! ## `ParameterMapper.get_all_paths` (the `defaults_used` init) -/

mutual

/-- Python `repr` of a parsed path object (used by f-string rendering of
non-scalar keys). -/
def pyReprPy : PyObj → String
  | .int n => toString n
  | .str s => pyReprStrLit s
  | .tuple [x] => "(" ++ pyReprPy x ++ ",)"
  | .tuple xs => "(" ++ String.intercalate ", " (pyReprPyList xs) ++ ")"
  | .list xs => "[" ++ String.intercalate ", " (pyReprPyList xs) ++ "]"

def pyReprPyList : List PyObj → List String
  | [] => []
  | x :: rest => pyReprPy x :: pyReprPyList rest

end

/-- `f"{key}"`: `str()` of a path component. -/
def strOfPathKey : PyObj → String
  | .str s => s
  | .int n => toString n
  | k => pyReprPy k

mutual

/-- `ParameterMapper.get_all_paths`: every dotted/bracketed path present in
the template (fuel-bounded heap walk; any store loaded from JSON needs at
most `st.next` steps). -/
def getAllPathsH (st : Store) : Nat → Nat → String → List String
  | 0, _, _ => []
  | fuel + 1, a, path =>
      match st.heap a with
      | some (.obj fs) => getAllPathsFields st fuel fs path
      | some (.arr xs) => getAllPathsElems st fuel 0 xs path
      | _ => []

def getAllPathsFields (st : Store) : Nat → List (PyObj × Nat) → String → List String
  | _, [], _ => []
  | fuel, kv :: rest, path =>
      let cur := if path = "" then strOfPathKey kv.1
                 else path ++ "." ++ strOfPathKey kv.1
      (cur :: getAllPathsH st fuel kv.2 cur) ++ getAllPathsFields st fuel rest path

def getAllPathsElems (st : Store) : Nat → Nat → List Nat → String → List String
  | _, _, [], _ => []
  | fuel, i, a :: rest, path =>
      let cur := path ++ "[" ++ toString i ++ "]"
      (cur :: getAllPathsH st fuel a cur) ++ getAllPathsElems st fuel (i + 1) rest path

end

/-- First-occurrence deduplication, modelling Python `set` construction
(set iteration order is unspecified in Python; this fixes one order). -/
def dedupFirstAux {α : Type} [DecidableEq α] (seen : List α) : List α → List α
  | [] => []
  | x :: rest =>
      if seen.contains x then dedupFirstAux seen rest
      else x :: dedupFirstAux (x :: seen) rest

def dedupFirst {α : Type} [DecidableEq α] (l : List α) : List α := dedupFirstAux [] l

/-- `self.defaults_used = set(self.get_all_paths(template))` at
construction time. -/
def initialDefaults (st : Store) (templateA : Nat) : List String :=
  dedupFirst (getAllPathsH st st.next templateA "")

/-- `ParameterMapper` construction followed by `map_parameters`, with the
defaults bookkeeping initialized from the template. -/
def paramMapperRun (st : Store) (ms : Mappings) (templateA inputA : Nat)
    (inputUrl outputType : String) : Except PyErr (Store × Nat × List String) :=
  mapParametersH st ms templateA inputA inputUrl outputType (initialDefaults st templateA)

/-! ## JSON-LD exporter (`jsonld_exporter.py`) -/

def skosPrefLabel : String := "http://www.w3.org/2004/02/skos/core#prefLabel"

def rdfsLabel : String := "http://www.w3.org/2000/01/rdf-schema#label"

def contextUrl : String := "https://w3id.org/emmo/domain/battery/context"

/-- `_first_literal_str`: the first object of `(subj, pred, ·)`. -/
def firstLiteralStr (g : RdfGraph) (subj pred : String) : Option String :=
  (g.triples.find? (fun t => t.1 == subj && t.2.1 == pred)).map (fun t => t.2.2)

/-- `_get_skos_prefLabel`: `skos:prefLabel`, falling back to `rdfs:label`,
falling back to the compact identifier. -/
def getSkosPrefLabel (g : RdfGraph) (term : String) : String :=
  match firstLiteralStr g term skosPrefLabel with
  | some s => s
  | none =>
      match firstLiteralStr g term rdfsLabel with
      | some s => s
      | none => g.curie term

/-- Characters after the last occurrence of `c` (the whole string if `c`
does not occur). -/
def afterLastChar (c : Char) (cs : List Char) : List Char :=
  cs.foldl (fun acc ch => if ch = c then [] else acc ++ [ch]) []

/-- `_get_modellib_hash`: `rsplit("#", 1)[-1].rsplit("/", 1)[-1]`. -/
def modellibHash (s : String) : String :=
  String.mk (afterLastChar '/' (afterLastChar '#' s.data))

def unitPredCandidates : List String := ["hasMeasurementUnit", "hasUnit", "unit"]

/-- `_find_any_predicate_by_localname` over `set(g.predicates())`. -/
def findAnyUnitPredicate (g : RdfGraph) : Option String :=
  (dedupFirst (g.triples.map (fun t => t.2.1))).find?
    (fun p => unitPredCandidates.contains (modellibHash p))

/-- `_get_unit_for_subject`. -/
def getUnitForSubject (g : RdfGraph) (subject : String) : Option String :=
  match findAnyUnitPredicate g with
  | some up => (firstLiteralStr g subject up).map g.curie
  | none => none

/-- `_is_number_like`: numbers (but not booleans), or text that `float()`
accepts. -/
def isNumberLike : JValue → Bool
  | .num _ => true
  | .bool _ => false
  | .str s => !(pyStrip s).isEmpty && (parseFloatPy s).isSome
  | _ => false

/-- `float(value)` for the number-like values the exporter emits; other
shapes would raise and are unreachable behind `isNumberLike`. -/
def pyFloatJ : JValue → ℚ
  | .num q => q
  | .str s => (parseFloatPy s).getD 0
  | .bool b => if b then 1 else 0
  | _ => 0

/-- Iterating a parsed path object: sequences yield items, strings their
characters; iterating an `int` raises `TypeError` (caught by the
surrounding `try` of `_get_value_from_path`). -/
def pyIterObj : PyObj → Option (List PyObj)
  | .tuple xs => some xs
  | .list xs => some xs
  | .str s => some (s.data.map (fun c => .str (String.mk [c])))
  | .int _ => none

def lookupJ : List (String × JValue) → String → Option JValue
  | [], _ => none
  | (k, v) :: rest, key => if k = key then some v else lookupJ rest key

/-- Python list indexing on JSON arrays, negative indices included. -/
def jListIdx (xs : List JValue) (k : Int) : Option JValue :=
  if 0 ≤ k ∧ k < (xs.length : Int) then xs.get? k.toNat
  else if -(xs.length : Int) ≤ k ∧ k < 0 then xs.get? (xs.length - (-k).toNat)
  else none

/-- The walk of `jsonld_exporter._get_value_from_path`.  All caught
exceptions return `None`; reaching a JSON `null` returns the same Python
`None` object (the caller's `if value is None` test cannot tell the two
apart), so both are `none`. -/
def exGetWalk : JValue → List PyObj → Option JValue
  | d, [] => if d = .null then none else some d
  | d, k :: rest =>
      match d with
      | .obj fs =>
          match stripKey k with
          | .str s =>
              match lookupJ fs s with
              | some v => exGetWalk v rest
              | none => none
          | _ => none
      | .arr xs =>
          match pyIntOfKey (stripKey k) with
          | some n =>
              match jListIdx xs n with
              | some v => exGetWalk v rest
              | none => none
          | none => none
      | _ => none

def exporterGet (d : JValue) (path : PyObj) : Option JValue :=
  match pyIterObj path with
  | some ks => exGetWalk d ks
  | none => none

/-- `set(g.subjects(input_key, None))`: the subjects carrying the
input-format annotation, deduplicated. -/
def subjectsWithKey (g : RdfGraph) (ik : String) : List String :=
  dedupFirst (g.triples.filterMap (fun t => if t.2.1 == ik then some t.1 else none))

/-- The first input-format annotation literal on a subject (the exporter
`break`s at the first matching predicate). -/
def firstIkObj (g : RdfGraph) (ik : String) (s : String) : Option String :=
  (g.triples.find? (fun t => t.1 == s && t.2.1 == ik)).map (fun t => t.2.2)

/-- One loop iteration of `export_jsonld`: the property node contributed
by one annotated subject, or `none` when the path is falsy or the value is
absent. -/
def propNodeFor (g : RdfGraph) (ik : String) (input : JValue) (s : String) : Option JValue :=
  match firstIkObj g ik s with
  | none => none
  | some objLit =>
      let path := parseKey objLit
      if !pyTruthy path then none
      else
        match exporterGet input path with
        | none => none
        | some v =>
            let base := [("@type", JValue.str (g.curie s)),
                         ("rdfs:label", JValue.str (getSkosPrefLabel g s))]
            let strPart := fun (t : String) =>
              [("hasStringPart", JValue.obj [("@type", JValue.str "String"),
                                             ("hasStringValue", JValue.str t)])]
            let part : List (String × JValue) :=
              if isNumberLike v then
                [("hasNumericalPart", JValue.obj [("@type", JValue.str "Real"),
                                                  ("hasNumericalValue", JValue.num (pyFloatJ v))])]
              else
                match v with
                | .str s2 => strPart s2
                | .arr _ => strPart (pyStrJ v)
                | .obj fs2 =>
                    match lookupJ fs2 "functionname" with
                    | some fv => strPart (pyStrJ fv)
                    | none => strPart (pyStrJ v)
                | _ => strPart (pyStrJ v)
            let unitPart : List (String × JValue) :=
              match getUnitForSubject g s with
              | some u => [("emmo:hasMeasurementUnit", JValue.str u)]
              | none => []
            some (.obj (base ++ part ++ unitPart))

/-- The `hasProperty` list built by the subject loop. -/
def exportProps (g : RdfGraph) (ik : String) (input : JValue) : List JValue :=
  (subjectsWithKey g ik).filterMap (propNodeFor g ik input)

/-! ### The missing-value audit (`_find_missing_values`) -/

mutual

/-- `collect_json_paths`: every leaf path of the input document. -/
def collectJsonPaths : JValue → List PyObj → List (List PyObj)
  | .obj fs, pre => collectJsonPathsF fs pre
  | .arr xs, pre => collectJsonPathsA xs 0 pre
  | _, pre => [pre]

def collectJsonPathsF : List (String × JValue) → List PyObj → List (List PyObj)
  | [], _ => []
  | (k, v) :: rest, pre => collectJsonPaths v (pre ++ [.str k]) ++ collectJsonPathsF rest pre

def collectJsonPathsA : List JValue → Nat → List PyObj → List (List PyObj)
  | [], _, _ => []
  | v :: rest, i, pre => collectJsonPaths v (pre ++ [.int (i : Int)]) ++ collectJsonPathsA rest (i + 1) pre

end

/-- The ontology-declared paths for one format
(`mapped_paths` in `_find_missing_values`): `tuple(parse_key(str(o)))` for
every annotation object; `tuple()` of an `int` parse raises `TypeError`
(uncaught). -/
def mappedPathsGo (ik : String) : List (String × String × String) → List (List PyObj) →
    Except PyErr (List (List PyObj))
  | [], acc => .ok (dedupFirst acc.reverse)
  | t :: rest, acc =>
      if t.2.1 == ik then
        match pyTupleOf (parseKey t.2.2) with
        | .ok tp => mappedPathsGo ik rest (tp :: acc)
        | .error e => .error e
      else mappedPathsGo ik rest acc

def mappedPathsE (g : RdfGraph) (ikO : Option String) : Except PyErr (List (List PyObj)) :=
  match ikO with
  | none => .ok []
  | some ik => mappedPathsGo ik g.triples []

mutual

/-- Python comparison of path components: ints with ints, strings with
strings, tuples with tuples, lists with lists; every other pairing raises
`TypeError` (`none`). -/
def pyCmpObj : PyObj → PyObj → Option Ordering
  | .int a, .int b => some (compare a b)
  | .str a, .str b => some (compare a b)
  | .tuple a, .tuple b => pyCmpList a b
  | .list a, .list b => pyCmpList a b
  | _, _ => none

def pyCmpList : List PyObj → List PyObj → Option Ordering
  | [], [] => some .eq
  | [], _ :: _ => some .lt
  | _ :: _, [] => some .gt
  | x :: xs, y :: ys =>
      match pyCmpObj x y with
      | some .eq => pyCmpList xs ys
      | some o => some o
      | none => none

end

def insertSortedPath (p : List PyObj) : List (List PyObj) → List (List PyObj)
  | [] => [p]
  | q :: rest =>
      match pyCmpList p q with
      | some .gt => q :: insertSortedPath p rest
      | _ => p :: q :: rest

/-- `sorted(...)` over path tuples.  CPython's sort raises `TypeError`
only when it actually compares an incomparable pair, which depends on the
sort's internal comparison schedule; this model raises whenever any pair
is incomparable (battery documents have uniformly comparable paths). -/
def pySortPaths (ps : List (List PyObj)) : Except PyErr (List (List PyObj)) :=
  if ps.all (fun p => ps.all (fun q => (pyCmpList p q).isSome)) then
    .ok (ps.foldr insertSortedPath [])
  else .error .typeError

/-- `_find_missing_values`: input leaf paths, ontology-mapped paths, and
the sorted unmapped leaves. -/
def findMissingValues (g : RdfGraph) (ikO : Option String) (input : JValue) :
    Except PyErr (List (List PyObj) × List (List PyObj) × List (List PyObj)) :=
  match mappedPathsE g ikO with
  | .error e => .error e
  | .ok mapped =>
      let inputPaths := dedupFirst (collectJsonPaths input [])
      match pySortPaths (inputPaths.filter (fun p => !(mapped.contains p))) with
      | .error e => .error e
      | .ok missing => .ok (inputPaths, mapped, missing)

/-- `".".join(str(x) for x in p)`. -/
def renderPath (p : List PyObj) : String :=
  String.intercalate "." (p.map strOfPathKey)

/-- `export_jsonld`: fail fast on an unknown (or falsy) input format;
otherwise emit the fixed `@context`/`@graph` envelope around the property
nodes, then run the missing-value audit.  The source writes the document
and the audit report to files and returns `None`; the model returns the
two documents.  (If the audit raises, the source has already written the
main document; the flattened `Except` here loses that intermediate state,
which no claim depends on.) -/
def exportJsonld (g : RdfGraph) (inputType : String) (inputData : JValue)
    (cellId cellType : String) :
    Except PyErr (JValue × List String) :=
  match keyMap inputType with
  | none => .error (.valueError ("Invalid input type: " ++ inputType))
  | some ik =>
      if ik = "" then .error (.valueError ("Invalid input type: " ++ inputType))
      else
        let props := exportProps g ik inputData
        let out : JValue :=
          .obj [("@context", .str contextUrl),
                ("@graph", .obj [("@id", .str cellId), ("@type", .str cellType),
                                 ("hasProperty", .arr props)])]
        match findMissingValues g (keyMap inputType) inputData with
        | .error e => .error e
        | .ok r => .ok (out, r.2.2.map renderPath)

def demoStoreA : Store :=
  { heap := fun a =>
      if a = 0 then some (.obj [(.str "a", 1)])
      else if a = 1 then some (.obj [(.str "b", 2)])
      else if a = 2 then some (.num 1)
      else if a = 3 then some (.obj [(.str "x", 4)])
      else if a = 4 then some (.num 2)
      else none,
    next := 5 }

def okStoreOf : Except PyErr (Store × Nat × List String) → Option Store
  | .ok r => some r.1
  | .error _ => none

def errOf {α : Type} : Except PyErr α → Option PyErr
  | .error e => some e
  | .ok _ => none

def demoStoreB : Store :=
  { heap := fun a =>
      if a = 0 then some (.obj [])
      else if a = 1 then some (.obj [(.str "v", 2)])
      else if a = 2 then some (.num 1)
      else none,
    next := 3 }

def demoGraph : RdfGraph :=
  { triples := [("sub1", bpxPredicate, "('a',)")], curie := fun s => s }

/-- Stores are well-formed when no address at or above the bump pointer is
allocated.  Every store built by the embedded operations from a
well-formed store is again well-formed. -/
def WFStore (st : Store) : Prop := ∀ a, st.next ≤ a → st.heap a = none

/-- The JSON shape of the BattMo Function-Value built by
`_string_expr_to_battmo_func`. -/
def battmoFuncJ (args : List String) (expr : String) : JValue :=
  .obj [("functionFormat", .str "string expression"),
        ("argumentList", .arr (args.map .str)),
        ("expression", .str expr)]

def c1Store : Store :=
  { heap := fun a => if a = 0 then some (.str "c_e * exp(x_s)") else none, next := 1 }

/-- A graph with one malformed path literal (excluded) and one well-formed
subject (recorded). -/
def c8Graph : RdfGraph :=
  { triples := [("bad", bpxPredicate, "###"), ("bad", battmoPredicate, "('x',)"),
                ("s1", bpxPredicate, "('a',)"), ("s1", battmoPredicate, "('b',)")],
    curie := fun s => s }

/-- A store holding the input document `{"k": null}` together with a
template `{"k": 1}`. -/
def c10Store : Store :=
  { heap := fun a =>
      if a = 0 then some (.obj [(.str "k", 1)])
      else if a = 1 then some .null
      else if a = 2 then some (.obj [(.str "k", 3)])
      else if a = 3 then some (.num 1)
      else none,
    next := 4 }

/-- Mapping nodes keep being mapping nodes: every mutation the embedded
operations perform rewrites a node with one of the same kind. -/
def KindPreserved (st st2 : Store) : Prop :=
  ∀ b fs, st.heap b = some (Node.obj fs) → ∃ fs2, st2.heap b = some (Node.obj fs2)

/-- Stores only grow under allocation-only operations. -/
def HeapExtends (st st2 : Store) : Prop :=
  ∀ b nd, st.heap b = some nd → st2.heap b = some nd

/-- No node in the store references the address `t`.  This holds for the
root address of any document freshly loaded from JSON (nothing points at
a root), and it is what keeps `set_value_from_path`'s walk — which starts
at the shallow copy — from ever mutating the template's own top-level
node. -/
def NoRefTo (st : Store) (t : Nat) : Prop :=
  ∀ b nd, st.heap b = some nd → t ∉ nd.refs

/-- The store state protecting the template address `t`: well-formed
bump-pointer heap, no node anywhere references `t`, and `t` is an already
allocated address (so fresh allocations never collide with it). -/
def SafeAt (st : Store) (t : Nat) : Prop :=
  WFStore st ∧ NoRefTo st t ∧ t < st.next

/-! ## Lemmas about the normalization scan -/

lemma sub3_one (a b c x : Char) (p : Bool) : sub3 a b c p [x] = [x] := rfl

lemma sub3_two (a b c x y : Char) (p : Bool) : sub3 a b c p [x, y] = [x, y] := rfl

lemma sub3_cons3 (a b c : Char) (p : Bool) (x y z : Char) (rest : List Char) :
    sub3 a b c p (x :: y :: z :: rest) =
      if matchAt a b c p (x :: y :: z :: rest) then 'x' :: sub3 a b c true rest
      else x :: sub3 a b c (wordChar x) (y :: z :: rest) := rfl

lemma hasOcc_cons (a b c x : Char) (p : Bool) (xs : List Char) :
    hasOcc a b c p (x :: xs) =
      (matchAt a b c p (x :: xs) || hasOcc a b c (wordChar x) xs) := rfl

lemma matchAt_cons3 (a b c : Char) (p : Bool) (x y z : Char) (rest : List Char) :
    matchAt a b c p (x :: y :: z :: rest) =
      (!p && (x == a) && (y == b) && (z == c) && bdryOk rest) := rfl

lemma hasOcc_false_head {a b c x : Char} {p : Bool} {xs : List Char}
    (h : hasOcc a b c p (x :: xs) = false) : matchAt a b c p (x :: xs) = false := by
  rw [hasOcc_cons] at h
  exact (Bool.or_eq_false_iff.mp h).1

lemma hasOcc_false_tail {a b c x : Char} {p : Bool} {xs : List Char}
    (h : hasOcc a b c p (x :: xs) = false) : hasOcc a b c (wordChar x) xs = false := by
  rw [hasOcc_cons] at h
  exact (Bool.or_eq_false_iff.mp h).2

/-- With a word character just before the scan position, no word-bounded
match can start there, so the scan copies the head. -/
lemma sub3_cons_of_prev_word (a b c x : Char) (xs : List Char) :
    sub3 a b c true (x :: xs) = x :: sub3 a b c (wordChar x) xs := by
  rcases xs with _ | ⟨y, _ | ⟨z, rest⟩⟩
  · rfl
  · rfl
  · rw [sub3_cons3, matchAt_cons3]
    simp

/-- If the text has no word-bounded occurrence of the pattern, the
substitution is the identity. -/
lemma sub3_id_of_not_hasOcc (a b c : Char) :
    ∀ (l : List Char) (p : Bool), hasOcc a b c p l = false → sub3 a b c p l = l := by
  intro l
  induction l with
  | nil => intro p _; rfl
  | cons x xs ih =>
    intro p h
    rcases xs with _ | ⟨y, _ | ⟨z, rest⟩⟩
    · rfl
    · rfl
    · have h1 := hasOcc_false_head h
      have h2 := hasOcc_false_tail h
      rw [sub3_cons3, if_neg (by simp [h1])]
      exact congrArg _ (ih _ h2)

/-- Core invariant: substituting a word-character pattern `q₁q₂q₃` by the
word character `x` creates no word-bounded occurrence of a word-character
pattern `abc` — neither of the pattern itself (the `a = q₁ ...` case,
which needs no premise) nor of another such pattern the text was already
free of. -/
lemma hasOcc_sub3_false (a b c q1 q2 q3 : Char)
    (ha : wordChar a = true) (hb : wordChar b = true) (hc : wordChar c = true)
    (_hq2 : wordChar q2 = true) (hq3 : wordChar q3 = true) :
    ∀ (n : Nat) (l : List Char), l.length ≤ n → ∀ (p : Bool),
      (hasOcc a b c p l = false ∨ (a = q1 ∧ b = q2 ∧ c = q3)) →
      hasOcc a b c p (sub3 q1 q2 q3 p l) = false := by
  intro n
  induction n with
  | zero =>
    intro l hl p _
    have hnil : l = [] := List.length_eq_zero.mp (Nat.le_zero.mp hl)
    subst hnil; rfl
  | succ n ih =>
    intro l hl p hyp
    rcases l with _ | ⟨x, _ | ⟨y, _ | ⟨z, rest⟩⟩⟩
    · rfl
    · simp [sub3, hasOcc, matchAt]
    · simp [sub3, hasOcc, matchAt]
    · have hlr : rest.length ≤ n := by simp at hl; omega
      have hlyz : (y :: z :: rest).length ≤ n := by simp at hl ⊢; omega
      by_cases hm : matchAt q1 q2 q3 p (x :: y :: z :: rest) = true
      · -- a replacement happens here
        rw [sub3_cons3, if_pos hm]
        have hm' := hm
        rw [matchAt_cons3] at hm'
        simp only [Bool.and_eq_true, beq_iff_eq, Bool.not_eq_true'] at hm'
        obtain ⟨⟨⟨⟨hp, hx⟩, hy⟩, hz⟩, hbd⟩ := hm'
        -- the tail, after the match, is free of the pattern
        have h2 : hasOcc a b c true rest = false ∨ (a = q1 ∧ b = q2 ∧ c = q3) := by
          rcases hyp with h | h
          · left
            have t1 := hasOcc_false_tail h
            have t2 := hasOcc_false_tail t1
            have t3 := hasOcc_false_tail t2
            rw [hz, hq3] at t3
            exact t3
          · right; exact h
        have hrec := ih rest hlr true h2
        rw [hasOcc_cons]
        have hwx : wordChar 'x' = true := by decide
        rw [hwx]
        have hfst : matchAt a b c p ('x' :: sub3 q1 q2 q3 true rest) = false := by
          rcases rest with _ | ⟨r, rs⟩
          · rfl
          · have hwr : wordChar r = false := by
              simpa [bdryOk] using hbd
            rw [sub3_cons_of_prev_word]
            rcases hT : sub3 q1 q2 q3 (wordChar r) rs with _ | ⟨t, ts⟩
            · rfl
            · rw [matchAt_cons3]
              have hrb : (r == b) = false := by
                apply beq_eq_false_iff_ne.mpr
                intro hEq
                rw [hEq, hb] at hwr
                simp at hwr
              simp [hrb]
        rw [hfst, hrec]
        rfl
      · -- no replacement at this position
        have hm' : matchAt q1 q2 q3 p (x :: y :: z :: rest) = false := by
          simpa using hm
        rw [sub3_cons3, if_neg (by simp [hm'])]
        have h2 : hasOcc a b c (wordChar x) (y :: z :: rest) = false ∨
            (a = q1 ∧ b = q2 ∧ c = q3) := by
          rcases hyp with h | h
          · exact Or.inl (hasOcc_false_tail h)
          · right; exact h
        have hrec := ih (y :: z :: rest) hlyz (wordChar x) h2
        rw [hasOcc_cons, hrec]
        have hfst : matchAt a b c p (x :: sub3 q1 q2 q3 (wordChar x) (y :: z :: rest)) = false := by
          cases hMM : matchAt a b c p (x :: sub3 q1 q2 q3 (wordChar x) (y :: z :: rest))
          · rfl
          · exfalso
            rcases hT2 : sub3 q1 q2 q3 (wordChar x) (y :: z :: rest) with _ | ⟨t1, _ | ⟨t2, ts⟩⟩ <;>
              rw [hT2] at hMM
            · exact absurd hMM (by simp [matchAt])
            · exact absurd hMM (by simp [matchAt])
            · rw [matchAt_cons3] at hMM
              simp only [Bool.and_eq_true, beq_iff_eq, Bool.not_eq_true'] at hMM
              obtain ⟨⟨⟨⟨hp, hxa⟩, ht1⟩, ht2⟩, hbd⟩ := hMM
              have hwxT : wordChar x = true := by rw [hxa]; exact ha
              rw [hwxT, sub3_cons_of_prev_word] at hT2
              have hyt1 : y = t1 := by
                have := congrArg (fun l => l.headD 'Q') hT2
                simpa using this
              have hT2' : sub3 q1 q2 q3 (wordChar y) (z :: rest) = t2 :: ts := by
                have := congrArg List.tail hT2
                simpa using this
              have hwy : wordChar y = true := by rw [hyt1, ht1]; exact hb
              rw [hwy, sub3_cons_of_prev_word] at hT2'
              have hzt2 : z = t2 := by
                have := congrArg (fun l => l.headD 'Q') hT2'
                simpa using this
              have hts : sub3 q1 q2 q3 (wordChar z) rest = ts := by
                have := congrArg List.tail hT2'
                simpa using this
              have hwz : wordChar z = true := by rw [hzt2, ht2]; exact hc
              rw [hwz] at hts
              -- the boundary after `ts` is the boundary after `rest`
              have hbdrest : bdryOk rest = true := by
                rcases rest with _ | ⟨r, rs⟩
                · rfl
                · rw [sub3_cons_of_prev_word] at hts
                  rcases ts with _ | ⟨u, us⟩
                  · exact absurd hts (by simp)
                  · have hru : r = u := by
                      have := congrArg (fun l => l.headD 'Q') hts
                      simpa using this
                    rw [bdryOk] at hbd ⊢
                    rw [hru]
                    exact hbd
              have hmatch : matchAt a b c p (x :: y :: z :: rest) = true := by
                rw [matchAt_cons3]
                simp [hp, hxa, hyt1, ht1, hzt2, ht2, hbdrest]
              rcases hyp with h | h
              · exact absurd hmatch (by simp [hasOcc_false_head h])
              · obtain ⟨e1, e2, e3⟩ := h
                rw [e1, e2, e3] at hmatch
                exact absurd hmatch (by simp [hm'])
        rw [hfst]
        rfl

/-- The output of the `x_s` pass has no word-bounded `x_s` left. -/
lemma no_xs_after_xs (l : List Char) (p : Bool) :
    hasOcc 'x' '_' 's' p (sub3 'x' '_' 's' p l) = false :=
  hasOcc_sub3_false 'x' '_' 's' 'x' '_' 's' (by decide) (by decide) (by decide)
    (by decide) (by decide) l.length l le_rfl p (Or.inr ⟨rfl, rfl, rfl⟩)

/-- The output of the `c_e` pass has no word-bounded `c_e` left. -/
lemma no_ce_after_ce (l : List Char) (p : Bool) :
    hasOcc 'c' '_' 'e' p (sub3 'c' '_' 'e' p l) = false :=
  hasOcc_sub3_false 'c' '_' 'e' 'c' '_' 'e' (by decide) (by decide) (by decide)
    (by decide) (by decide) l.length l le_rfl p (Or.inr ⟨rfl, rfl, rfl⟩)

/-- The `c_e` pass creates no word-bounded `x_s` occurrence. -/
lemma no_xs_after_ce (l : List Char) (p : Bool)
    (h : hasOcc 'x' '_' 's' p l = false) :
    hasOcc 'x' '_' 's' p (sub3 'c' '_' 'e' p l) = false :=
  hasOcc_sub3_false 'x' '_' 's' 'c' '_' 'e' (by decide) (by decide) (by decide)
    (by decide) (by decide) l.length l le_rfl p (Or.inl h)

/-- C9 (claim): applying the variable-name normalization (word-bounded
`x_s` ↦ `x`, then word-bounded `c_e` ↦ `x`) twice yields the same result
as applying it once. -/
theorem replace_variables_idempotent (s : String) :
    replaceVariables (replaceVariables s) = replaceVariables s := by
  show String.mk (sub3 'c' '_' 'e' false (sub3 'x' '_' 's' false
      (sub3 'c' '_' 'e' false (sub3 'x' '_' 's' false s.data)))) =
    String.mk (sub3 'c' '_' 'e' false (sub3 'x' '_' 's' false s.data))
  have h1 := no_xs_after_xs s.data false
  have h3 := no_xs_after_ce (sub3 'x' '_' 's' false s.data) false h1
  have h2 := no_ce_after_ce (sub3 'x' '_' 's' false s.data) false
  rw [sub3_id_of_not_hasOcc _ _ _ _ _ h3, sub3_id_of_not_hasOcc _ _ _ _ _ h2]

/-! ## Engine equivalence of `battmo.m` and `battmo.jl` -/

lemma keyMap_battmo_m : keyMap "battmo.m" = some battmoPredicate := rfl

lemma keyMap_battmo_jl : keyMap "battmo.jl" = some battmoPredicate := rfl

lemma convertH_m_jl (st : Store) (va : Nat) (ik ok : List PyObj) :
    convertH st va ik ok "battmo.m" = convertH st va ik ok "battmo.jl" := by
  unfold convertH
  cases h : st.heap va with
  | none => rfl
  | some nd => cases nd <;> simp

lemma mapLoop_m_jl (ms : Mappings) :
    ∀ (st : Store) (outA ia : Nat) (d : List String),
      mapLoop st outA ia ms "battmo.m" d = mapLoop st outA ia ms "battmo.jl" d := by
  induction ms with
  | nil => intro st outA ia d; rfl
  | cons e rest ih =>
      intro st outA ia d
      obtain ⟨ik, ok⟩ := e
      unfold mapLoop
      cases hv : getValueFromPathH st ia ik with
      | none => exact ih st outA ia d
      | some va =>
          dsimp only
          rw [convertH_m_jl]
          cases hs : setValueFromPathH (convertH st va ik ok "battmo.jl").1 outA ok
              (convertH st va ik ok "battmo.jl").2 with
          | error e => rfl
          | ok st2 => exact ih st2 outA ia _

/-- C5 (claim): `battmo.m` and `battmo.jl` resolve to the same annotation
predicate, the mapping indices built for them agree, every
value-conversion rule treats the two identifiers identically, and the
whole translation produces identical output documents (identical result
stores and addresses). -/
theorem battmo_m_jl_equivalent :
    keyMap "battmo.m" = keyMap "battmo.jl" ∧
    (∀ (g : RdfGraph) (it : String),
      (getMappings g it "battmo.m").toOption = (getMappings g it "battmo.jl").toOption) ∧
    (∀ (g : RdfGraph) (ot : String),
      (getMappings g "battmo.m" ot).toOption = (getMappings g "battmo.jl" ot).toOption) ∧
    (∀ (st : Store) (va : Nat) (ik ok : List PyObj),
      convertH st va ik ok "battmo.m" = convertH st va ik ok "battmo.jl") ∧
    (∀ (st : Store) (ms : Mappings) (ta ia : Nat) (url : String) (d0 : List String),
      mapParametersH st ms ta ia url "battmo.m" d0 = mapParametersH st ms ta ia url "battmo.jl" d0) := by
  refine ⟨rfl, ?_, ?_, convertH_m_jl, ?_⟩
  · intro g it
    unfold getMappings
    rw [keyMap_battmo_m, keyMap_battmo_jl]
    cases keyMap it with
    | none => rfl
    | some ik =>
        dsimp only
        split <;> rfl
  · intro g ot
    unfold getMappings
    rw [keyMap_battmo_m, keyMap_battmo_jl]
    cases keyMap ot with
    | none => rfl
    | some ok =>
        dsimp only
        split <;> rfl
  · intro st ms ta ia url d0
    unfold mapParametersH
    cases copyShallow st ta with
    | error e => rfl
    | ok r =>
        obtain ⟨st1, outA⟩ := r
        dsimp only
        rw [mapLoop_m_jl]
        cases mapLoop st1 outA ia ms "battmo.jl" d0 with
        | error e => rfl
        | ok r2 => rfl

/-! ## Conversion of string expressions into BattMo function objects -/

lemma heap_alloc_new (st : Store) (n : Node) : ((st.alloc n).1).heap st.next = some n := by
  simp [Store.alloc]

lemma heap_alloc_old (st : Store) (n : Node) (a : Nat) (h : a ≠ st.next) :
    ((st.alloc n).1).heap a = st.heap a := by
  simp [Store.alloc, h]

lemma WFStore.lt_next {st : Store} (hwf : WFStore st) {a : Nat} {n : Node}
    (h : st.heap a = some n) : a < st.next := by
  by_contra hge
  rw [hwf a (by omega)] at h
  exact Option.noConfusion h

/-- Evaluation of `reifyF` on the object freshly built by
`_string_expr_to_battmo_func` for a matched function field. -/
lemma reify_stringExpr_func (st : Store) (ea : Nat) (okeys : List PyObj) (s : String)
    (hwf : WFStore st) (hea : st.heap ea = some (.str s)) :
    reifyF 3 (stringExprToBattmoFuncH st ea okeys).1 (stringExprToBattmoFuncH st ea okeys).2 =
      some (if hasComponent okeys "openCircuitPotential" then
              battmoFuncJ ["stoichiometry"] s
            else if hasComponent okeys "ionicConductivity" then
              battmoFuncJ ["concentration", "temperature"] s
            else if hasComponent okeys "diffusionCoefficient" then
              battmoFuncJ ["concentration", "temperature"] s
            else .str s) := by
  have hlt : ea < st.next := hwf.lt_next hea
  have d0 : ¬(ea = st.next) := by omega
  have d1 : ¬(ea = st.next + 1) := by omega
  have d2 : ¬(ea = st.next + 1 + 1) := by omega
  have d3 : ¬(ea = st.next + 1 + 1 + 1) := by omega
  have d4 : ¬(ea = st.next + 1 + 1 + 1 + 1) := by omega
  have e01 : ¬(st.next = st.next + 1) := by omega
  have e02 : ¬(st.next = st.next + 1 + 1) := by omega
  have e03 : ¬(st.next = st.next + 1 + 1 + 1) := by omega
  have e04 : ¬(st.next = st.next + 1 + 1 + 1 + 1) := by omega
  have e12 : ¬(st.next + 1 = st.next + 1 + 1) := by omega
  have e13 : ¬(st.next + 1 = st.next + 1 + 1 + 1) := by omega
  have e14 : ¬(st.next + 1 = st.next + 1 + 1 + 1 + 1) := by omega
  have e23 : ¬(st.next + 1 + 1 = st.next + 1 + 1 + 1) := by omega
  have e24 : ¬(st.next + 1 + 1 = st.next + 1 + 1 + 1 + 1) := by omega
  have e34 : ¬(st.next + 1 + 1 + 1 = st.next + 1 + 1 + 1 + 1) := by omega
  unfold stringExprToBattmoFuncH funcParams
  by_cases h1 : hasComponent okeys "openCircuitPotential"
  · simp only [List.find?, h1]
    simp [Store.alloc, allocStrs, reifyF, battmoFuncJ, h1, List.mapM.loop,
      d0, d1, d2, d3, d4, e01, e02, e03, e04, e12, e13, e14, e23, e24, e34, hea]
  · by_cases h2 : hasComponent okeys "ionicConductivity"
    · simp only [List.find?, h1, h2, Bool.false_eq_true, if_false, if_true]
      simp [Store.alloc, allocStrs, reifyF, battmoFuncJ, h1, h2, List.mapM.loop,
        d0, d1, d2, d3, d4, e01, e02, e03, e04, e12, e13, e14, e23, e24, e34, hea]
    · by_cases h3 : hasComponent okeys "diffusionCoefficient"
      · simp only [List.find?, h1, h2, h3, Bool.false_eq_true, if_false, if_true]
        simp [Store.alloc, allocStrs, reifyF, battmoFuncJ, h1, h2, h3, List.mapM.loop,
          d0, d1, d2, d3, d4, e01, e02, e03, e04, e12, e13, e14, e23, e24, e34, hea]
      · simp only [List.find?, h1, h2, h3, Bool.false_eq_true, if_false]
        simp [reifyF, h1, h2, h3, hea]

lemma WFStore.alloc {st : Store} (hwf : WFStore st) (n : Node) : WFStore (st.alloc n).1 := by
  intro a ha
  simp only [Store.alloc] at ha ⊢
  have hne : ¬(a = st.next) := by omega
  simp only [hne, if_false]
  exact hwf a (by omega)

/-- C1 (claim): for a text value at a mapped input path, with a
function-capable (BattMo) output format, `convert_value` first normalizes
variable names and then wraps the text as a Function-Value with
`functionFormat "string expression"`, `argumentList ["stoichiometry"]`
when the output path contains the component `openCircuitPotential`,
`["concentration", "temperature"]` when it contains `ionicConductivity`
or `diffusionCoefficient`, and otherwise writes the normalized text
itself as a plain string. -/
theorem convert_text_battmo_spec (st : Store) (va : Nat) (s : String) (ik okeys : List PyObj)
    (ot : String) (hwf : WFStore st) (hv : st.heap va = some (.str s))
    (hot : ot = "battmo.m" ∨ ot = "battmo.jl") :
    reifyF 3 (convertH st va ik okeys ot).1 (convertH st va ik okeys ot).2 =
      some (if hasComponent okeys "openCircuitPotential" then
              battmoFuncJ ["stoichiometry"] (replaceVariables s)
            else if hasComponent okeys "ionicConductivity" then
              battmoFuncJ ["concentration", "temperature"] (replaceVariables s)
            else if hasComponent okeys "diffusionCoefficient" then
              battmoFuncJ ["concentration", "temperature"] (replaceVariables s)
            else .str (replaceVariables s)) := by
  have hcond : (ot = "battmo.m" || ot = "battmo.jl") = true := by
    rcases hot with h | h <;> simp [h]
  unfold convertH
  rw [hv]
  dsimp only
  rw [if_pos hcond]
  exact reify_stringExpr_func _ _ okeys (replaceVariables s) (hwf.alloc _) (heap_alloc_new st _)

lemma c1Store_wf : WFStore c1Store := by
  intro a ha
  have ha1 : 1 ≤ a := ha
  have hne : ¬(a = 0) := by omega
  simp [c1Store, hne]

/-- Witness for C1 at a concrete store, text and output path. -/
theorem convert_text_battmo_spec_witness :
    c1Store.heap 0 = some (.str "c_e * exp(x_s)") ∧
    ("battmo.m" = "battmo.m" ∨ ("battmo.m" : String) = "battmo.jl") ∧
    reifyF 3 (convertH c1Store 0 [] [PyObj.str "openCircuitPotential"] "battmo.m").1
        (convertH c1Store 0 [] [PyObj.str "openCircuitPotential"] "battmo.m").2 =
      some (battmoFuncJ ["stoichiometry"] "x * exp(x)") := by
  refine ⟨rfl, Or.inl rfl, ?_⟩
  have h := convert_text_battmo_spec c1Store 0 "c_e * exp(x_s)" []
    [PyObj.str "openCircuitPotential"] "battmo.m" c1Store_wf rfl (Or.inl rfl)
  rw [h]
  decide

/-- C6 (claim): converting a text formula into a function-capable format
at a function-valued output path yields a Function-Value whose
`expression` is the normalized text and whose `argumentList` is the
field-specific fixed argument set; converting that Function-Value back
(`_battmo_func_to_string_expr`) allocates nothing and returns exactly the
stored expression — the normalized string. -/
theorem func_value_roundtrip (st : Store) (va : Nat) (s : String) (ik okeys : List PyObj)
    (ot : String) (hwf : WFStore st) (hv : st.heap va = some (.str s))
    (hot : ot = "battmo.m" ∨ ot = "battmo.jl")
    (hfield : hasComponent okeys "openCircuitPotential" = true ∨
              hasComponent okeys "ionicConductivity" = true ∨
              hasComponent okeys "diffusionCoefficient" = true) :
    reifyF 3 (convertH st va ik okeys ot).1 (convertH st va ik okeys ot).2 =
      some (battmoFuncJ
        (if hasComponent okeys "openCircuitPotential" then ["stoichiometry"]
         else ["concentration", "temperature"])
        (replaceVariables s)) ∧
    (battmoFuncToStringExprH (convertH st va ik okeys ot).1 (convertH st va ik okeys ot).2).1 =
      (convertH st va ik okeys ot).1 ∧
    (convertH st va ik okeys ot).1.heap
        (battmoFuncToStringExprH (convertH st va ik okeys ot).1 (convertH st va ik okeys ot).2).2 =
      some (.str (replaceVariables s)) := by
  have hcond : (ot = "battmo.m" || ot = "battmo.jl") = true := by
    rcases hot with h | h <;> simp [h]
  unfold convertH
  rw [hv]
  dsimp only
  rw [if_pos hcond]
  have hreify := reify_stringExpr_func (st.alloc (.str (replaceVariables s))).1
    (st.alloc (.str (replaceVariables s))).2 okeys (replaceVariables s)
    (hwf.alloc _) (heap_alloc_new st _)
  refine ⟨?_, ?_⟩
  · rw [hreify]
    by_cases h1 : hasComponent okeys "openCircuitPotential"
    · simp [h1]
    · by_cases h2 : hasComponent okeys "ionicConductivity"
      · simp [h1, h2]
      · rcases hfield with h | h | h
        · exact absurd h h1
        · exact absurd h h2
        · simp [h1, h2, h]
  · have e01 : ¬(st.next + 1 = st.next + 1 + 1) := by omega
    have e02 : ¬(st.next + 1 = st.next + 1 + 1 + 1) := by omega
    have e03 : ¬(st.next + 1 = st.next + 1 + 1 + 1 + 1) := by omega
    have e04 : ¬(st.next + 1 = st.next + 1 + 1 + 1 + 1 + 1) := by omega
    have f0 : ¬(st.next = st.next + 1) := by omega
    have f1 : ¬(st.next = st.next + 1 + 1) := by omega
    have f2 : ¬(st.next = st.next + 1 + 1 + 1) := by omega
    have f3 : ¬(st.next = st.next + 1 + 1 + 1 + 1) := by omega
    have f4 : ¬(st.next = st.next + 1 + 1 + 1 + 1 + 1) := by omega
    unfold stringExprToBattmoFuncH funcParams
    by_cases h1 : hasComponent okeys "openCircuitPotential"
    · simp only [List.find?, h1]
      constructor
      · simp [Store.alloc, allocStrs, battmoFuncToStringExprH, lookupField]
      · simp [Store.alloc, allocStrs, battmoFuncToStringExprH, lookupField,
          e01, e02, e03, f0, f1, f2, f3]
    · by_cases h2 : hasComponent okeys "ionicConductivity"
      · simp only [List.find?, h1, h2, Bool.false_eq_true, if_false, if_true]
        constructor
        · simp [Store.alloc, allocStrs, battmoFuncToStringExprH, lookupField]
        · simp [Store.alloc, allocStrs, battmoFuncToStringExprH, lookupField,
            e01, e02, e03, e04, f0, f1, f2, f3, f4]
      · rcases hfield with h | h | h
        · exact absurd h h1
        · exact absurd h h2
        · simp only [List.find?, h1, h2, h, Bool.false_eq_true, if_false, if_true]
          constructor
          · simp [Store.alloc, allocStrs, battmoFuncToStringExprH, lookupField]
          · simp [Store.alloc, allocStrs, battmoFuncToStringExprH, lookupField,
              e01, e02, e03, e04, f0, f1, f2, f3, f4]

/-- Witness for C6 at a concrete store, formula text and
ionic-conductivity output path. -/
theorem func_value_roundtrip_witness :
    reifyF 3 (convertH c1Store 0 [] [PyObj.str "ionicConductivity"] "battmo.jl").1
        (convertH c1Store 0 [] [PyObj.str "ionicConductivity"] "battmo.jl").2 =
      some (battmoFuncJ ["concentration", "temperature"] "x * exp(x)") ∧
    (battmoFuncToStringExprH (convertH c1Store 0 [] [PyObj.str "ionicConductivity"] "battmo.jl").1
        (convertH c1Store 0 [] [PyObj.str "ionicConductivity"] "battmo.jl").2).1 =
      (convertH c1Store 0 [] [PyObj.str "ionicConductivity"] "battmo.jl").1 ∧
    (convertH c1Store 0 [] [PyObj.str "ionicConductivity"] "battmo.jl").1.heap
        (battmoFuncToStringExprH (convertH c1Store 0 [] [PyObj.str "ionicConductivity"] "battmo.jl").1
          (convertH c1Store 0 [] [PyObj.str "ionicConductivity"] "battmo.jl").2).2 =
      some (.str "x * exp(x)") := by
  have h := func_value_roundtrip c1Store 0 "c_e * exp(x_s)" []
    [PyObj.str "ionicConductivity"] "battmo.jl" c1Store_wf rfl (Or.inr rfl)
    (Or.inr (Or.inl (by decide)))
  refine ⟨?_, h.2.1, ?_⟩
  · rw [h.1]
    decide
  · rw [h.2.2]
    decide

/-! ## Configuration errors for unknown formats -/

lemma keyMap_some_ne_empty {t p : String} (h : keyMap t = some p) : p ≠ "" := by
  unfold keyMap at h
  split_ifs at h <;>
    first
    | (injection h with h1; rw [← h1]; decide)
    | exact Option.noConfusion h

lemma pyTupleOf_error {o : PyObj} {e : PyErr} (h : pyTupleOf o = .error e) : e = .typeError := by
  cases o <;> simp_all [pyTupleOf]

lemma gmLoop_not_valueError (g : RdfGraph) (ik ok : String) :
    ∀ (subs : List String) (m : Mappings) (msg : String),
      gmLoop g ik ok subs m ≠ .error (.valueError msg) := by
  intro subs
  induction subs with
  | nil => intro m msg h; exact Except.noConfusion h
  | cons s rest ih =>
      intro m msg
      unfold gmLoop
      by_cases hb : (truthyOpt (scanSubject ik ok (predicateObjects g s)).1 &&
          truthyOpt (scanSubject ik ok (predicateObjects g s)).2) = true
      · rw [if_pos hb]
        cases h1 : (scanSubject ik ok (predicateObjects g s)).1 with
        | none => exact ih m msg
        | some iv =>
            cases h2 : (scanSubject ik ok (predicateObjects g s)).2 with
            | none => exact ih m msg
            | some ov =>
                dsimp only [bind, Except.bind]
                cases ht1 : pyTupleOf iv with
                | error e =>
                    intro hcontra
                    injection hcontra with he
                    rw [pyTupleOf_error ht1] at he
                    exact PyErr.noConfusion he
                | ok ti =>
                    cases ht2 : pyTupleOf ov with
                    | error e =>
                        intro hcontra
                        injection hcontra with he
                        rw [pyTupleOf_error ht2] at he
                        exact PyErr.noConfusion he
                    | ok tv => exact ih _ msg
      · rw [if_neg hb]
        exact ih m msg

lemma mappedPathsGo_not_valueError (ik : String) :
    ∀ (ts : List (String × String × String)) (acc : List (List PyObj)) (msg : String),
      mappedPathsGo ik ts acc ≠ .error (.valueError msg) := by
  intro ts
  induction ts with
  | nil => intro acc msg h; exact Except.noConfusion h
  | cons t rest ih =>
      intro acc msg
      unfold mappedPathsGo
      by_cases hb : (t.2.1 == ik) = true
      · rw [if_pos hb]
        cases ht : pyTupleOf (parseKey t.2.2) with
        | error e =>
            intro hcontra
            injection hcontra with he
            rw [pyTupleOf_error ht] at he
            exact PyErr.noConfusion he
        | ok tp => exact ih _ msg
      · rw [if_neg hb]
        exact ih acc msg

lemma pySortPaths_error {ps : List (List PyObj)} {e : PyErr}
    (h : pySortPaths ps = .error e) : e = .typeError := by
  unfold pySortPaths at h
  split at h
  · exact Except.noConfusion h
  · injection h with he
    exact he.symm

lemma findMissingValues_not_valueError (g : RdfGraph) (ikO : Option String) (input : JValue)
    (msg : String) : findMissingValues g ikO input ≠ .error (.valueError msg) := by
  unfold findMissingValues
  cases hm : mappedPathsE g ikO with
  | error e =>
      unfold mappedPathsE at hm
      cases ikO with
      | none => simp at hm
      | some ik =>
          intro hcontra
          injection hcontra with he
          rw [he] at hm
          exact mappedPathsGo_not_valueError ik g.triples [] msg hm
  | ok mapped =>
      dsimp only
      cases hs : pySortPaths ((dedupFirst (collectJsonPaths input [])).filter
          (fun p => !(mapped.contains p))) with
      | error e =>
          intro hcontra
          injection hcontra with he
          rw [he] at hs
          have := pySortPaths_error hs
          exact PyErr.noConfusion this
      | ok miss =>
          intro hcontra
          simp at hcontra

/-- C4 (claim): an unknown format identifier on either side makes
`get_mappings` fail with the `ValueError` configuration error and no
partial mapping; `export_jsonld` fails the same way for an unknown input
format before any output is produced; for identifiers present in the
static format table no such configuration error is ever raised. -/
theorem unknown_format_config_error :
    (∀ (g : RdfGraph) (it ot : String), keyMap it = none ∨ keyMap ot = none →
      getMappings g it ot =
        .error (.valueError ("Invalid input or output type: " ++ it ++ ", " ++ ot))) ∧
    (∀ (g : RdfGraph) (it : String) (input : JValue) (cid ct : String), keyMap it = none →
      exportJsonld g it input cid ct = .error (.valueError ("Invalid input type: " ++ it))) ∧
    (∀ (g : RdfGraph) (it ot : String), (keyMap it).isSome = true → (keyMap ot).isSome = true →
      ∀ msg, getMappings g it ot ≠ .error (.valueError msg)) ∧
    (∀ (g : RdfGraph) (it : String) (input : JValue) (cid ct : String),
      (keyMap it).isSome = true →
      ∀ msg, exportJsonld g it input cid ct ≠ .error (.valueError msg)) := by
  refine ⟨?_, ?_, ?_, ?_⟩
  · intro g it ot h
    unfold getMappings
    rcases h with h | h <;> rw [h] <;> cases keyMap it <;> cases keyMap ot <;>
      first | rfl | (exact Option.noConfusion h)
  · intro g it input cid ct h
    unfold exportJsonld
    rw [h]
  · intro g it ot hi ho msg
    obtain ⟨ik, hik⟩ := Option.isSome_iff_exists.mp hi
    obtain ⟨ok, hok⟩ := Option.isSome_iff_exists.mp ho
    unfold getMappings
    rw [hik, hok]
    dsimp only
    rw [if_neg (by simp [keyMap_some_ne_empty hik, keyMap_some_ne_empty hok])]
    exact gmLoop_not_valueError g ik ok (graphSubjects g) [] msg
  · intro g it input cid ct hi msg
    obtain ⟨ik, hik⟩ := Option.isSome_iff_exists.mp hi
    unfold exportJsonld
    rw [hik]
    dsimp only
    rw [if_neg (keyMap_some_ne_empty hik)]
    cases hf : findMissingValues g (some ik) input with
    | error e =>
        intro hcontra
        injection hcontra with he
        rw [he] at hf
        exact findMissingValues_not_valueError g (some ik) input msg hf
    | ok r =>
        intro hcontra
        simp at hcontra

/-- Witness for C4: the scenario from the spec — an unknown output format
identifier fails with the configuration error, an unknown export input
format fails the same way, and known formats raise no such error. -/
theorem unknown_format_config_error_witness :
    getMappings demoGraph "bpx" "nope" =
      .error (.valueError "Invalid input or output type: bpx, nope") ∧
    exportJsonld demoGraph "nope" (.obj []) "BattMo" "PouchCell" =
      .error (.valueError "Invalid input type: nope") ∧
    getMappings demoGraph "bpx" "battmo.m" ≠ .error (.valueError "anything") ∧
    exportJsonld demoGraph "bpx" (.obj []) "BattMo" "PouchCell" ≠
      .error (.valueError "anything") := by
  refine ⟨?_, ?_, ?_, ?_⟩
  · exact unknown_format_config_error.1 demoGraph "bpx" "nope" (Or.inr rfl)
  · exact unknown_format_config_error.2.1 demoGraph "nope" (.obj []) "BattMo" "PouchCell" rfl
  · exact unknown_format_config_error.2.2.1 demoGraph "bpx" "battmo.m" rfl rfl "anything"
  · exact unknown_format_config_error.2.2.2 demoGraph "bpx" (.obj []) "BattMo" "PouchCell" rfl
      "anything"

/-! ## Malformed ontology path literals -/

lemma pyTruthy_tupleOf_ne_nil {o : PyObj} {l : List PyObj} (ht : pyTruthy o = true)
    (h : pyTupleOf o = .ok l) : l ≠ [] := by
  cases o with
  | int n => simp [pyTupleOf] at h
  | str s =>
      simp only [pyTupleOf, Except.ok.injEq] at h
      intro hl
      rw [← h, List.map_eq_nil_iff] at hl
      simp only [pyTruthy] at ht
      cases s with
      | mk data =>
          cases hl
          simp at ht
  | tuple xs =>
      simp only [pyTupleOf, Except.ok.injEq] at h
      simp only [pyTruthy] at ht
      intro hl
      rw [← h] at hl
      rw [hl] at ht
      simp at ht
  | list xs =>
      simp only [pyTupleOf, Except.ok.injEq] at h
      simp only [pyTruthy] at ht
      intro hl
      rw [← h] at hl
      rw [hl] at ht
      simp at ht

lemma mem_insertMapping {k v : List PyObj} {e : List PyObj × List PyObj} :
    ∀ {m : Mappings}, e ∈ insertMapping m k v → e ∈ m ∨ e = (k, v) := by
  intro m
  induction m with
  | nil =>
      intro h
      simp only [insertMapping, List.mem_singleton] at h
      right; exact h
  | cons kv rest ih =>
      obtain ⟨k0, v0⟩ := kv
      intro h
      unfold insertMapping at h
      by_cases hk : k0 = k
      · rw [if_pos hk] at h
        rcases List.mem_cons.mp h with h1 | h1
        · right; exact h1
        · left; exact List.mem_cons_of_mem _ h1
      · rw [if_neg hk] at h
        rcases List.mem_cons.mp h with h1 | h1
        · left; rw [h1]; exact List.mem_cons_self _ _
        · rcases ih h1 with h2 | h2
          · left; exact List.mem_cons_of_mem _ h2
          · right; exact h2

/-- Entries recorded by the subject loop always have non-empty input and
output paths (the truthiness test screens out empty parses). -/
lemma gmLoop_entries (g : RdfGraph) (ik ok : String) :
    ∀ (subs : List String) (m m' : Mappings),
      gmLoop g ik ok subs m = .ok m' →
      (∀ e ∈ m, e.1 ≠ [] ∧ e.2 ≠ []) →
      ∀ e ∈ m', e.1 ≠ [] ∧ e.2 ≠ [] := by
  intro subs
  induction subs with
  | nil =>
      intro m m' h hm
      injection h with h1
      rw [← h1]
      exact hm
  | cons s rest ih =>
      intro m m' h hm
      unfold gmLoop at h
      by_cases hb : (truthyOpt (scanSubject ik ok (predicateObjects g s)).1 &&
          truthyOpt (scanSubject ik ok (predicateObjects g s)).2) = true
      · rw [if_pos hb] at h
        cases h1 : (scanSubject ik ok (predicateObjects g s)).1 with
        | none => rw [h1] at h; exact ih m m' h hm
        | some iv =>
            cases h2 : (scanSubject ik ok (predicateObjects g s)).2 with
            | none => rw [h1, h2] at h; exact ih m m' h hm
            | some ov =>
                rw [h1, h2] at h
                dsimp only [bind, Except.bind] at h
                cases ht1 : pyTupleOf iv with
                | error e1 => rw [ht1] at h; exact Except.noConfusion h
                | ok ti =>
                    rw [ht1] at h
                    cases ht2 : pyTupleOf ov with
                    | error e2 => rw [ht2] at h; exact Except.noConfusion h
                    | ok tv =>
                        rw [ht2] at h
                        refine ih _ m' h ?_
                        intro e he
                        rcases mem_insertMapping he with h3 | h3
                        · exact hm e h3
                        · rw [h1, h2] at hb
                          simp only [truthyOpt, Bool.and_eq_true] at hb
                          rw [h3]
                          exact ⟨pyTruthy_tupleOf_ne_nil hb.1 ht1,
                                 pyTruthy_tupleOf_ne_nil hb.2 ht2⟩
      · rw [if_neg hb] at h
        exact ih m m' h hm

/-- C8 (claim): a path literal that fails to parse is recovered as the
empty path without raising; an empty (falsy) parse on either side makes
the owning subject contribute no entry; and every entry recorded in a
successfully built mapping index has a non-empty input path and a
non-empty output path. -/
theorem malformed_path_literal_excluded :
    (∀ s : String, pyLiteralEval s = none → parseKey s = .list []) ∧
    pyTruthy (.list []) = false ∧
    (∀ (g : RdfGraph) (ik ok s : String) (subs : List String) (m : Mappings),
      (truthyOpt (scanSubject ik ok (predicateObjects g s)).1 &&
       truthyOpt (scanSubject ik ok (predicateObjects g s)).2) = false →
      gmLoop g ik ok (s :: subs) m = gmLoop g ik ok subs m) ∧
    (∀ (g : RdfGraph) (it ot : String) (m : Mappings), getMappings g it ot = .ok m →
      ∀ e ∈ m, e.1 ≠ [] ∧ e.2 ≠ []) := by
  refine ⟨?_, rfl, ?_, ?_⟩
  · intro s h
    unfold parseKey
    rw [h]
  · intro g ik ok s subs m hb
    conv_lhs => unfold gmLoop
    rw [if_neg (by simp [hb])]
  · intro g it ot m h e he
    unfold getMappings at h
    cases hik : keyMap it with
    | none => rw [hik] at h; cases hok : keyMap ot <;> rw [hok] at h <;> exact Except.noConfusion h
    | some ik =>
        cases hok : keyMap ot with
        | none => rw [hik, hok] at h; exact Except.noConfusion h
        | some ok =>
            rw [hik, hok] at h
            dsimp only at h
            by_cases hemp : (ik = "" || ok = "") = true
            · rw [if_pos hemp] at h; exact Except.noConfusion h
            · rw [if_neg hemp] at h
              exact gmLoop_entries g ik ok (graphSubjects g) [] m h (by intro e he; cases he) e he

/-- Witness for C8: the malformed literal `###` parses to the empty path,
the subject carrying it is excluded from the index, and the recorded
entry has non-empty paths. -/
theorem malformed_path_literal_excluded_witness :
    parseKey "###" = .list [] ∧
    getMappings c8Graph "bpx" "battmo.m" =
      .ok [([PyObj.str "a"], [PyObj.str "b"])] ∧
    ([PyObj.str "a"], [PyObj.str "b"]).1 ≠ [] ∧
    ([PyObj.str "a"], [PyObj.str "b"]).2 ≠ [] := by
  refine ⟨malformed_path_literal_excluded.1 "###" (by decide), by decide, ?_, ?_⟩
  · exact (malformed_path_literal_excluded.2.2.2 c8Graph "bpx" "battmo.m"
      [([PyObj.str "a"], [PyObj.str "b"])] (by decide) _ (by decide)).1
  · exact (malformed_path_literal_excluded.2.2.2 c8Graph "bpx" "battmo.m"
      [([PyObj.str "a"], [PyObj.str "b"])] (by decide) _ (by decide)).2

/-! ## JSON null versus an absent path -/

/-- The mapper's value lookup never returns a reference to a JSON null:
a stored null is returned as Python `None`, which is exactly the
absent-path result. -/
lemma getValueFromPathH_ne_null (st : Store) :
    ∀ (keys : List PyObj) (a va : Nat),
      getValueFromPathH st a keys = some va → st.heap va ≠ some .null := by
  intro keys
  induction keys with
  | nil =>
      intro a va h
      unfold getValueFromPathH at h
      cases hn : st.heap a with
      | none => rw [hn] at h; exact Option.noConfusion h
      | some nd =>
          rw [hn] at h
          cases nd <;> simp_all
  | cons k rest ih =>
      intro a va h
      unfold getValueFromPathH at h
      cases hn : st.heap a with
      | none => rw [hn] at h; exact Option.noConfusion h
      | some nd =>
          rw [hn] at h
          cases nd with
          | obj fs =>
              dsimp only at h
              cases hl : lookupField fs (stripKey k) with
              | none => rw [hl] at h; exact Option.noConfusion h
              | some b => rw [hl] at h; exact ih b va h
          | arr xs =>
              dsimp only at h
              cases hi : pyIntOfKey (stripKey k) with
              | none => rw [hi] at h; exact Option.noConfusion h
              | some n =>
                  rw [hi] at h
                  dsimp only at h
                  cases hx : pyListIdx xs n with
                  | none => rw [hx] at h; exact Option.noConfusion h
                  | some b => rw [hx] at h; exact ih b va h
          | null => exact Option.noConfusion h
          | bool b => exact Option.noConfusion h
          | num q => exact Option.noConfusion h
          | str s => exact Option.noConfusion h

/-- The exporter's value lookup never returns a JSON null either. -/
lemma exGetWalk_ne_null :
    ∀ (keys : List PyObj) (d v : JValue), exGetWalk d keys = some v → v ≠ .null := by
  intro keys
  induction keys with
  | nil =>
      intro d v h
      unfold exGetWalk at h
      by_cases hd : d = .null
      · rw [if_pos hd] at h; exact Option.noConfusion h
      · rw [if_neg hd] at h
        injection h with h1
        rw [← h1]
        exact hd
  | cons k rest ih =>
      intro d v h
      unfold exGetWalk at h
      cases d with
      | obj fs =>
          dsimp only at h
          cases hk : stripKey k with
          | str s =>
              rw [hk] at h
              dsimp only at h
              cases hl : lookupJ fs s with
              | none => rw [hl] at h; exact Option.noConfusion h
              | some w => rw [hl] at h; exact ih w v h
          | int n => rw [hk] at h; exact Option.noConfusion h
          | tuple xs => rw [hk] at h; exact Option.noConfusion h
          | list xs => rw [hk] at h; exact Option.noConfusion h
      | arr xs =>
          dsimp only at h
          cases hi : pyIntOfKey (stripKey k) with
          | none => rw [hi] at h; exact Option.noConfusion h
          | some n =>
              rw [hi] at h
              dsimp only at h
              cases hx : jListIdx xs n with
              | none => rw [hx] at h; exact Option.noConfusion h
              | some w => rw [hx] at h; exact ih w v h
      | null => exact Option.noConfusion h
      | bool b => exact Option.noConfusion h
      | num q => exact Option.noConfusion h
      | str s => exact Option.noConfusion h

/-- C10 (claim): a JSON null stored at a mapped input path is
indistinguishable from an absent path — the lookup yields the absent
marker in both cases (it never yields a null object), `map_parameters`
skips such an entry outright (the template default at the output path is
retained, null is never copied), and the exporter emits no property node
for such a subject. -/
theorem null_indistinguishable_from_absent :
    (∀ (st : Store) (keys : List PyObj) (a va : Nat),
      getValueFromPathH st a keys = some va → st.heap va ≠ some .null) ∧
    (∀ (st : Store) (outA ia : Nat) (ik ok : List PyObj) (rest : Mappings)
        (ot : String) (d : List String),
      getValueFromPathH st ia ik = none →
      mapLoop st outA ia ((ik, ok) :: rest) ot d = mapLoop st outA ia rest ot d) ∧
    (∀ (p : PyObj) (d v : JValue), exporterGet d p = some v → v ≠ .null) ∧
    (∀ (g : RdfGraph) (ik : String) (input : JValue) (s objLit : String),
      firstIkObj g ik s = some objLit →
      exporterGet input (parseKey objLit) = none →
      propNodeFor g ik input s = none) := by
  refine ⟨?_, ?_, ?_, ?_⟩
  · intro st keys a va h
    exact getValueFromPathH_ne_null st keys a va h
  · intro st outA ia ik ok rest ot d h
    conv_lhs => unfold mapLoop
    rw [h]
  · intro p d v h
    unfold exporterGet at h
    cases hp : pyIterObj p with
    | none => rw [hp] at h; exact Option.noConfusion h
    | some ks => rw [hp] at h; exact exGetWalk_ne_null ks d v h
  · intro g ik input s objLit h1 h2
    unfold propNodeFor
    rw [h1]
    dsimp only
    by_cases ht : pyTruthy (parseKey objLit) = true
    · rw [if_neg (by simp [ht])]
      rw [h2]
    · rw [if_pos (by simp at ht ⊢; exact ht)]

/-- Witness for C10: on `{"k": null}` the lookup returns the absent
marker, the translation loop drops the entry, a non-null value is never
reported as null, and the exporter emits no node for a subject whose path
ends on a null. -/
theorem null_indistinguishable_from_absent_witness :
    getValueFromPathH c10Store 0 [PyObj.str "k"] = none ∧
    mapLoop c10Store 2 0 [([PyObj.str "k"], [PyObj.str "k"])] "cidemod" [] =
      mapLoop c10Store 2 0 [] "cidemod" [] ∧
    JValue.num 2 ≠ JValue.null ∧
    propNodeFor demoGraph bpxPredicate (.obj [("a", .null)]) "sub1" = none := by
  refine ⟨by decide, ?_, ?_, ?_⟩
  · exact null_indistinguishable_from_absent.2.1 c10Store 2 0 [PyObj.str "k"] [PyObj.str "k"]
      [] "cidemod" [] (by decide)
  · exact null_indistinguishable_from_absent.2.2.1 (PyObj.tuple [PyObj.str "a"])
      (.obj [("a", .num 2)]) (.num 2) (by decide)
  · exact null_indistinguishable_from_absent.2.2.2 demoGraph bpxPredicate
      (.obj [("a", .null)]) "sub1" "('a',)" (by decide) (by decide)

/-! ## Write errors: what escapes `set_value_from_path` -/

lemma KindPreserved.refl (st : Store) : KindPreserved st st := fun b fs h => ⟨fs, h⟩

lemma KindPreserved.trans {s1 s2 s3 : Store} (h12 : KindPreserved s1 s2)
    (h23 : KindPreserved s2 s3) : KindPreserved s1 s3 := by
  intro b fs h
  obtain ⟨fs2, h2⟩ := h12 b fs h
  exact h23 b fs2 h2

lemma kind_alloc {st : Store} (hwf : WFStore st) (n : Node) :
    KindPreserved st (st.alloc n).1 := by
  intro b fs hb
  refine ⟨fs, ?_⟩
  rw [heap_alloc_old st n b ?_, hb]
  have := hwf.lt_next hb
  omega

lemma wf_setNode {st : Store} (hwf : WFStore st) (nd : Node) {a : Nat} {nd2 : Node}
    (ha : st.heap a = some nd2) : WFStore (st.setNode a nd) := by
  intro x hx
  have hlt := hwf.lt_next ha
  have hne : ¬(x = a) := by
    have : st.next ≤ x := hx
    omega
  simp only [Store.setNode, hne, if_false]
  exact hwf x hx

lemma heap_setNode_self (st : Store) (a : Nat) (nd : Node) :
    (st.setNode a nd).heap a = some nd := by
  simp [Store.setNode]

lemma heap_setNode_other (st : Store) (a b : Nat) (nd : Node) (h : b ≠ a) :
    (st.setNode a nd).heap b = st.heap b := by
  simp [Store.setNode, h]

lemma kind_setNode_obj {st : Store} {a : Nat} {fs0 : List (PyObj × Nat)}
    (nfs : List (PyObj × Nat)) (_ha : st.heap a = some (.obj fs0)) :
    KindPreserved st (st.setNode a (.obj nfs)) := by
  intro b fs hb
  by_cases hba : b = a
  · exact ⟨nfs, by rw [hba, heap_setNode_self]⟩
  · exact ⟨fs, by rw [heap_setNode_other st a b _ hba, hb]⟩

lemma kind_setNode_arr {st : Store} {a : Nat} {xs0 : List Nat} (nxs : List Nat)
    (ha : st.heap a = some (.arr xs0)) :
    KindPreserved st (st.setNode a (.arr nxs)) := by
  intro b fs hb
  by_cases hba : b = a
  · rw [hba, ha] at hb
    exact Node.noConfusion (Option.some.injEq _ _ ▸ hb)
  · exact ⟨fs, by rw [heap_setNode_other st a b _ hba, hb]⟩

lemma appendEmpties_pres :
    ∀ (n : Nat) (st : Store) (xs : List Nat), WFStore st →
      WFStore (appendEmpties st xs n).1 ∧ KindPreserved st (appendEmpties st xs n).1 := by
  intro n
  induction n with
  | zero => intro st xs hwf; exact ⟨hwf, KindPreserved.refl st⟩
  | succ n ih =>
      intro st xs hwf
      unfold appendEmpties
      obtain ⟨hwf2, hk2⟩ := ih (st.alloc (.obj [])).1 (xs ++ [(st.alloc (.obj [])).2]) (hwf.alloc _)
      exact ⟨hwf2, (kind_alloc hwf _).trans hk2⟩

lemma extendList_pres (st : Store) (xs : List Nat) (tgt : Nat) (hwf : WFStore st) :
    WFStore (extendList st xs tgt).1 ∧ KindPreserved st (extendList st xs tgt).1 := by
  unfold extendList
  split
  · exact appendEmpties_pres _ st xs hwf
  · exact ⟨hwf, KindPreserved.refl st⟩

lemma allocStrs_pres :
    ∀ (ss : List String) (st : Store), WFStore st →
      WFStore (allocStrs st ss).1 ∧ KindPreserved st (allocStrs st ss).1 := by
  intro ss
  induction ss with
  | nil => intro st hwf; exact ⟨hwf, KindPreserved.refl st⟩
  | cons s rest ih =>
      intro st hwf
      unfold allocStrs
      obtain ⟨hwf2, hk2⟩ := ih (st.alloc (.str s)).1 (hwf.alloc _)
      exact ⟨hwf2, (kind_alloc hwf _).trans hk2⟩

lemma stringExprToBattmoFuncH_pres (st : Store) (ea : Nat) (okeys : List PyObj)
    (hwf : WFStore st) :
    WFStore (stringExprToBattmoFuncH st ea okeys).1 ∧
    KindPreserved st (stringExprToBattmoFuncH st ea okeys).1 := by
  unfold stringExprToBattmoFuncH
  cases funcParams.find? (fun p => hasComponent okeys p.1) with
  | none => exact ⟨hwf, KindPreserved.refl st⟩
  | some p =>
      dsimp only
      obtain ⟨hwf1, hk1⟩ := allocStrs_pres p.2 (st.alloc (.str "string expression")).1 (hwf.alloc _)
      refine ⟨(hwf1.alloc _).alloc _, ?_⟩
      exact ((((kind_alloc hwf _).trans hk1).trans (kind_alloc hwf1 _)).trans
        (kind_alloc (hwf1.alloc _) _))

lemma battmoFuncToStringExprH_pres (st : Store) (va : Nat) (hwf : WFStore st) :
    WFStore (battmoFuncToStringExprH st va).1 ∧
    KindPreserved st (battmoFuncToStringExprH st va).1 := by
  unfold battmoFuncToStringExprH
  cases st.heap va with
  | none => exact ⟨hwf, KindPreserved.refl st⟩
  | some nd =>
      cases nd with
      | obj fs =>
          dsimp only
          cases lookupField fs (.str "expression") with
          | some ea => exact ⟨hwf, KindPreserved.refl st⟩
          | none =>
              dsimp only
              split
              · exact ⟨hwf.alloc _, kind_alloc hwf _⟩
              · exact ⟨hwf.alloc _, kind_alloc hwf _⟩
      | null => exact ⟨hwf.alloc _, kind_alloc hwf _⟩
      | bool b => exact ⟨hwf.alloc _, kind_alloc hwf _⟩
      | num q => exact ⟨hwf.alloc _, kind_alloc hwf _⟩
      | str s => exact ⟨hwf.alloc _, kind_alloc hwf _⟩
      | arr xs => exact ⟨hwf.alloc _, kind_alloc hwf _⟩

lemma convertH_pres (st : Store) (va : Nat) (ik ok : List PyObj) (ot : String)
    (hwf : WFStore st) :
    WFStore (convertH st va ik ok ot).1 ∧ KindPreserved st (convertH st va ik ok ot).1 := by
  unfold convertH
  cases st.heap va with
  | none => exact ⟨hwf, KindPreserved.refl st⟩
  | some nd =>
      cases nd with
      | str s =>
          dsimp only
          split
          · obtain ⟨hwf1, hk1⟩ := stringExprToBattmoFuncH_pres
              (st.alloc (.str (replaceVariables s))).1 (st.alloc (.str (replaceVariables s))).2
              ok (hwf.alloc _)
            exact ⟨hwf1, (kind_alloc hwf _).trans hk1⟩
          · split
            · exact ⟨hwf.alloc _, kind_alloc hwf _⟩
            · exact ⟨hwf, KindPreserved.refl st⟩
      | obj fs =>
          dsimp only
          split
          · exact battmoFuncToStringExprH_pres st va hwf
          · exact ⟨hwf, KindPreserved.refl st⟩
      | null => exact ⟨hwf, KindPreserved.refl st⟩
      | bool b => exact ⟨hwf, KindPreserved.refl st⟩
      | num q => exact ⟨hwf, KindPreserved.refl st⟩
      | arr xs => exact ⟨hwf, KindPreserved.refl st⟩

lemma heapExtends_alloc {st : Store} (hwf : WFStore st) (n : Node) :
    HeapExtends st (st.alloc n).1 := by
  intro b nd hb
  rw [heap_alloc_old st n b ?_]
  · exact hb
  · have := hwf.lt_next hb
    omega

lemma appendEmpties_extends :
    ∀ (n : Nat) (st : Store) (xs : List Nat), WFStore st →
      HeapExtends st (appendEmpties st xs n).1 := by
  intro n
  induction n with
  | zero => intro st xs _ b nd hb; exact hb
  | succ n ih =>
      intro st xs hwf b nd hb
      unfold appendEmpties
      exact ih (st.alloc (.obj [])).1 _ (hwf.alloc _) b nd (heapExtends_alloc hwf _ b nd hb)

lemma extendList_extends (st : Store) (xs : List Nat) (tgt : Nat) (hwf : WFStore st) :
    HeapExtends st (extendList st xs tgt).1 := by
  unfold extendList
  split
  · exact appendEmpties_extends _ st xs hwf
  · intro b nd hb; exact hb

lemma setFinal_pres (st : Store) (cur : Nat) (k : PyObj) (va : Nat) (hwf : WFStore st) :
    WFStore (setFinal st cur k va).1 ∧ KindPreserved st (setFinal st cur k va).1 := by
  unfold setFinal
  cases hc : st.heap cur with
  | none => exact ⟨hwf, KindPreserved.refl st⟩
  | some nd =>
      cases nd with
      | obj fs =>
          dsimp only
          split
          · exact ⟨hwf, KindPreserved.refl st⟩
          · exact ⟨wf_setNode hwf _ hc, kind_setNode_obj _ hc⟩
      | arr xs =>
          dsimp only
          split
          · split
            · exact ⟨wf_setNode hwf _ hc, kind_setNode_arr _ hc⟩
            · exact ⟨hwf, KindPreserved.refl st⟩
          · exact ⟨hwf, KindPreserved.refl st⟩
      | null => exact ⟨hwf, KindPreserved.refl st⟩
      | bool b => exact ⟨hwf, KindPreserved.refl st⟩
      | num q => exact ⟨hwf, KindPreserved.refl st⟩
      | str s => exact ⟨hwf, KindPreserved.refl st⟩

lemma setWalk_pres :
    ∀ (keys : List PyObj) (st : Store) (cur va : Nat), WFStore st →
      WFStore (setWalk st cur keys va).1 ∧ KindPreserved st (setWalk st cur keys va).1 := by
  intro keys
  induction keys with
  | nil => intro st cur va hwf; exact ⟨hwf, KindPreserved.refl st⟩
  | cons k rest ih =>
      intro st cur va hwf
      rcases rest with _ | ⟨k2, rest2⟩
      · exact setFinal_pres st cur k va hwf
      · show WFStore (setWalk st cur (k :: k2 :: rest2) va).1 ∧ _
        unfold setWalk
        dsimp only
        have hstep : ∀ ki : Int,
            WFStore (match st.heap cur with
              | some (.arr xs) =>
                  let exd := if 0 ≤ ki then extendList st xs ki.toNat else (st, xs)
                  let st2 := exd.1.setNode cur (.arr exd.2)
                  match pyListIdx exd.2 ki with
                  | some b => setWalk st2 b (k2 :: rest2) va
                  | none => (st2, some .indexError)
              | some (.obj fs) =>
                  if (fs.length : Int) ≤ ki then (st, some .attributeError)
                  else
                    match lookupField fs (.int ki) with
                    | some b => setWalk st b (k2 :: rest2) va
                    | none => (st, some .keyError)
              | some (.str s) =>
                  if (s.data.length : Int) ≤ ki then (st, some .attributeError)
                  else
                    match pyStrIdx s ki with
                    | some ch =>
                        let al := st.alloc (.str (String.mk [ch]))
                        setWalk al.1 al.2 (k2 :: rest2) va
                    | none => (st, some .indexError)
              | some _ => (st, some .typeError)
              | none => (st, some .typeError)).1 ∧
            KindPreserved st (match st.heap cur with
              | some (.arr xs) =>
                  let exd := if 0 ≤ ki then extendList st xs ki.toNat else (st, xs)
                  let st2 := exd.1.setNode cur (.arr exd.2)
                  match pyListIdx exd.2 ki with
                  | some b => setWalk st2 b (k2 :: rest2) va
                  | none => (st2, some .indexError)
              | some (.obj fs) =>
                  if (fs.length : Int) ≤ ki then (st, some .attributeError)
                  else
                    match lookupField fs (.int ki) with
                    | some b => setWalk st b (k2 :: rest2) va
                    | none => (st, some .keyError)
              | some (.str s) =>
                  if (s.data.length : Int) ≤ ki then (st, some .attributeError)
                  else
                    match pyStrIdx s ki with
                    | some ch =>
                        let al := st.alloc (.str (String.mk [ch]))
                        setWalk al.1 al.2 (k2 :: rest2) va
                    | none => (st, some .indexError)
              | some _ => (st, some .typeError)
              | none => (st, some .typeError)).1 := by
          intro ki
          cases hc : st.heap cur with
          | none => exact ⟨hwf, KindPreserved.refl st⟩
          | some nd =>
              cases nd with
              | arr xs =>
                  dsimp only
                  have hext : HeapExtends st (if 0 ≤ ki then extendList st xs ki.toNat
                      else (st, xs)).1 := by
                    split
                    · exact extendList_extends st xs ki.toNat hwf
                    · intro b nd hb; exact hb
                  have hwfE : WFStore (if 0 ≤ ki then extendList st xs ki.toNat
                      else (st, xs)).1 := by
                    split
                    · exact (extendList_pres st xs ki.toNat hwf).1
                    · exact hwf
                  have hkE : KindPreserved st (if 0 ≤ ki then extendList st xs ki.toNat
                      else (st, xs)).1 := by
                    split
                    · exact (extendList_pres st xs ki.toNat hwf).2
                    · exact KindPreserved.refl st
                  have hcE := hext cur _ hc
                  have hwfS := wf_setNode hwfE
                    (.arr (if 0 ≤ ki then extendList st xs ki.toNat else (st, xs)).2) hcE
                  have hkS := hkE.trans (kind_setNode_arr
                    (if 0 ≤ ki then extendList st xs ki.toNat else (st, xs)).2 hcE)
                  cases pyListIdx (if 0 ≤ ki then extendList st xs ki.toNat
                      else (st, xs)).2 ki with
                  | some b =>
                      obtain ⟨hwf2, hk2⟩ := ih _ b va hwfS
                      exact ⟨hwf2, hkS.trans hk2⟩
                  | none => exact ⟨hwfS, hkS⟩
              | obj fs =>
                  dsimp only
                  split
                  · exact ⟨hwf, KindPreserved.refl st⟩
                  · cases lookupField fs (.int ki) with
                    | some b => exact ih st b va hwf
                    | none => exact ⟨hwf, KindPreserved.refl st⟩
              | str s =>
                  dsimp only
                  split
                  · exact ⟨hwf, KindPreserved.refl st⟩
                  · cases pyStrIdx s ki with
                    | some ch =>
                        obtain ⟨hwf2, hk2⟩ := ih _ _ va (hwf.alloc (.str (String.mk [ch])))
                        exact ⟨hwf2, (kind_alloc hwf _).trans hk2⟩
                    | none => exact ⟨hwf, KindPreserved.refl st⟩
              | null => exact ⟨hwf, KindPreserved.refl st⟩
              | bool b => exact ⟨hwf, KindPreserved.refl st⟩
              | num q => exact ⟨hwf, KindPreserved.refl st⟩
        cases hk : stripKey k with
        | int n => exact hstep n
        | str s =>
            by_cases hd : isDigitStr s = true
            · simp only [hd, eq_self_iff_true, if_true]
              exact hstep ((natFromDigits s.data : Nat) : Int)
            · simp only [hd, if_false]
              cases hc : st.heap cur with
              | none => exact ⟨hwf, KindPreserved.refl st⟩
              | some nd =>
                  cases nd with
                  | obj fs =>
                      dsimp only
                      cases lookupField fs (.str s) with
                      | some b => exact ih st b va hwf
                      | none =>
                          have hcA := heapExtends_alloc hwf (.obj []) cur _ hc
                          have hwfS := wf_setNode (hwf.alloc _)
                            (.obj (setField fs (.str s) (st.alloc (.obj [])).2)) hcA
                          have hkS := (kind_alloc hwf (.obj [])).trans
                            (kind_setNode_obj (setField fs (.str s) (st.alloc (.obj [])).2) hcA)
                          obtain ⟨hwf2, hk2⟩ := ih _ _ va hwfS
                          exact ⟨hwf2, hkS.trans hk2⟩
                  | null => exact ⟨hwf, KindPreserved.refl st⟩
                  | bool b => exact ⟨hwf, KindPreserved.refl st⟩
                  | num q => exact ⟨hwf, KindPreserved.refl st⟩
                  | str s2 => exact ⟨hwf, KindPreserved.refl st⟩
                  | arr xs => exact ⟨hwf, KindPreserved.refl st⟩
        | tuple xs => exact ⟨hwf, KindPreserved.refl st⟩
        | list xs => exact ⟨hwf, KindPreserved.refl st⟩

/-- `set_value_from_path` either succeeds (possibly having dropped the
write after a caught exception) with a well-formed, kind-preserving store,
or raises exactly `AttributeError`. -/
lemma setValueFromPathH_pres (st : Store) (root : Nat) (keys : List PyObj) (va : Nat)
    (hwf : WFStore st) :
    (∃ st2, setValueFromPathH st root keys va = .ok st2 ∧ WFStore st2 ∧ KindPreserved st st2) ∨
    setValueFromPathH st root keys va = .error .attributeError := by
  obtain ⟨hwf2, hk2⟩ := setWalk_pres keys st root va hwf
  unfold setValueFromPathH
  rcases hsw : setWalk st root keys va with ⟨st1, oe⟩
  rw [hsw] at hwf2 hk2
  dsimp only at hwf2 hk2 ⊢
  cases oe with
  | none => exact Or.inl ⟨st1, rfl, hwf2, hk2⟩
  | some e =>
      cases e with
      | attributeError => exact Or.inr rfl
      | valueError m => exact Or.inl ⟨st1, rfl, hwf2, hk2⟩
      | keyError => exact Or.inl ⟨st1, rfl, hwf2, hk2⟩
      | indexError => exact Or.inl ⟨st1, rfl, hwf2, hk2⟩
      | typeError => exact Or.inl ⟨st1, rfl, hwf2, hk2⟩

lemma mapLoop_pres :
    ∀ (ms : Mappings) (st : Store) (outA ia : Nat) (ot : String) (d : List String),
      WFStore st →
      (∃ r, mapLoop st outA ia ms ot d = .ok r ∧ WFStore r.1 ∧ KindPreserved st r.1) ∨
      mapLoop st outA ia ms ot d = .error .attributeError := by
  intro ms
  induction ms with
  | nil =>
      intro st outA ia ot d hwf
      exact Or.inl ⟨(st, d), rfl, hwf, KindPreserved.refl st⟩
  | cons e rest ih =>
      intro st outA ia ot d hwf
      obtain ⟨ik, ok⟩ := e
      unfold mapLoop
      cases hv : getValueFromPathH st ia ik with
      | none => exact ih st outA ia ot d hwf
      | some va =>
          dsimp only
          obtain ⟨hwfC, hkC⟩ := convertH_pres st va ik ok ot hwf
          rcases setValueFromPathH_pres (convertH st va ik ok ot).1 outA ok
              (convertH st va ik ok ot).2 hwfC with ⟨st2, hset, hwf2, hk2⟩ | herr
          · rw [hset]
            rcases ih st2 outA ia ot (removeDefaultFromUsed d ok) hwf2 with
              ⟨r, hr, hwfr, hkr⟩ | herr2
            · exact Or.inl ⟨r, hr, hwfr, ((hkC.trans hk2).trans hkr)⟩
            · exact Or.inr herr2
          · rw [herr]
            exact Or.inr rfl

/-- Amended C3: a write whose failure is one of the caught kinds
(`KeyError`, `IndexError`, `ValueError`, `TypeError` — e.g. an integer
component reaching a sufficiently populated mapping) is dropped with a
diagnostic and translation continues; but when a digit-like component
reaches a mapping or string shorter than the index, the
`while len(data) <= key: data.append({})` step raises `AttributeError`,
which is not caught: for a mapping-shaped template, `map_parameters`
either returns a document or raises exactly that `AttributeError`. -/
theorem translate_total_or_attributeError (st : Store) (ms : Mappings) (ta ia : Nat)
    (url ot : String) (d0 : List String) (hwf : WFStore st)
    (fs : List (PyObj × Nat)) (hta : st.heap ta = some (.obj fs)) :
    (∃ r, mapParametersH st ms ta ia url ot d0 = .ok r) ∨
    mapParametersH st ms ta ia url ot d0 = .error .attributeError := by
  unfold mapParametersH copyShallow
  rw [hta]
  dsimp only
  have hwf1 := hwf.alloc (.obj fs)
  have houtA : (st.alloc (.obj fs)).1.heap (st.alloc (.obj fs)).2 = some (.obj fs) :=
    heap_alloc_new st _
  rcases mapLoop_pres ms (st.alloc (.obj fs)).1 (st.alloc (.obj fs)).2 ia ot d0 hwf1 with
    ⟨r, hr, hwfr, hkr⟩ | herr
  · rw [hr]
    obtain ⟨st2, d2⟩ := r
    dsimp only
    by_cases hbpx : ot = "bpx"
    · rw [if_pos hbpx]
      obtain ⟨fs2, hfs2⟩ := hkr (st.alloc (.obj fs)).2 fs houtA
      unfold setBpxHeaderH
      rw [hfs2]
      exact Or.inl ⟨_, rfl⟩
    · rw [if_neg hbpx]
      exact Or.inl ⟨_, rfl⟩
  · rw [herr]
    exact Or.inr rfl

/-- Counterexample to C3 as stated: with template `{}` and one mapping
entry whose destination path is `("0", "b")`, the digit component reaches
the empty mapping, `dict.append` raises `AttributeError`, and
`map_parameters` raises instead of returning a document. -/
theorem set_path_raises_counterexample :
    errOf (mapParametersH demoStoreB [([PyObj.str "v"], [PyObj.str "0", PyObj.str "b"])] 0 1
      "u" "cidemod" []) = some .attributeError := by
  decide

lemma demoStoreB_wf : WFStore demoStoreB := by
  intro a ha
  have ha3 : 3 ≤ a := ha
  have h0 : ¬(a = 0) := by omega
  have h1 : ¬(a = 1) := by omega
  have h2 : ¬(a = 2) := by omega
  simp [demoStoreB, h0, h1, h2]

/-- Witness for the amended C3 at the concrete counterexample store. -/
theorem translate_total_or_attributeError_witness :
    (∃ r, mapParametersH demoStoreB [([PyObj.str "v"], [PyObj.str "0", PyObj.str "b"])] 0 1
        "u" "cidemod" [] = .ok r) ∨
    mapParametersH demoStoreB [([PyObj.str "v"], [PyObj.str "0", PyObj.str "b"])] 0 1
        "u" "cidemod" [] = .error .attributeError :=
  translate_total_or_attributeError demoStoreB
    [([PyObj.str "v"], [PyObj.str "0", PyObj.str "b"])] 0 1 "u" "cidemod" []
    demoStoreB_wf [] (by decide)

/-! ## What the translator does to the original template object -/

lemma noref_alloc {st : Store} {t : Nat} (hnr : NoRefTo st t) {n : Node}
    (hn : t ∉ n.refs) : NoRefTo (st.alloc n).1 t := by
  intro b nd hb
  by_cases hbn : b = st.next
  · rw [hbn] at hb
    rw [heap_alloc_new] at hb
    injection hb with h1
    rw [← h1]
    exact hn
  · rw [heap_alloc_old st n b hbn] at hb
    exact hnr b nd hb

lemma heapT_alloc {st : Store} {t : Nat} {nt : Node} (hwf : WFStore st)
    (ht : st.heap t = some nt) (n : Node) : (st.alloc n).1.heap t = some nt := by
  rw [heap_alloc_old st n t ?_, ht]
  have := hwf.lt_next ht
  omega

lemma noref_setNode {st : Store} {t b : Nat} {nd : Node} (hnr : NoRefTo st t)
    (hb : t ∉ nd.refs) : NoRefTo (st.setNode b nd) t := by
  intro x ndx hx
  by_cases hxb : x = b
  · rw [hxb, heap_setNode_self] at hx
    injection hx with h1
    rw [← h1]
    exact hb
  · rw [heap_setNode_other st b x nd hxb] at hx
    exact hnr x ndx hx

lemma heapT_setNode {st : Store} {t b : Nat} (nd : Node) (hne : b ≠ t) :
    (st.setNode b nd).heap t = st.heap t :=
  heap_setNode_other st b t nd (fun h => hne h.symm)

lemma lookupField_mem_refs :
    ∀ {fs : List (PyObj × Nat)} {k : PyObj} {a : Nat},
      lookupField fs k = some a → a ∈ (Node.obj fs).refs := by
  intro fs
  induction fs with
  | nil => intro k a h; exact Option.noConfusion h
  | cons kv rest ih =>
      intro k a h
      unfold lookupField at h
      by_cases hk : kv.1 = k
      · rw [if_pos hk] at h
        injection h with h1
        simp [Node.refs, ← h1]
      · rw [if_neg hk] at h
        have := ih h
        simp [Node.refs] at this ⊢
        exact Or.inr this

lemma pyListIdx_mem {xs : List Nat} {k : Int} {a : Nat} (h : pyListIdx xs k = some a) :
    a ∈ xs := by
  unfold pyListIdx at h
  split at h
  · exact List.get?_mem h
  · split at h
    · exact List.get?_mem h
    · exact Option.noConfusion h

lemma SafeAt.wf {st : Store} {t : Nat} (h : SafeAt st t) : WFStore st := h.1

lemma SafeAt.noref {st : Store} {t : Nat} (h : SafeAt st t) : NoRefTo st t := h.2.1

lemma SafeAt.lt {st : Store} {t : Nat} (h : SafeAt st t) : t < st.next := h.2.2

lemma safe_alloc {st : Store} {t : Nat} (hs : SafeAt st t) (n : Node)
    (hn : t ∉ n.refs) :
    SafeAt (st.alloc n).1 t ∧ (st.alloc n).1.heap t = st.heap t ∧ (st.alloc n).2 ≠ t := by
  obtain ⟨hwf, hnr, hlt⟩ := hs
  refine ⟨⟨hwf.alloc n, noref_alloc hnr hn, ?_⟩, ?_, ?_⟩
  · show t < st.next + 1
    omega
  · exact heap_alloc_old st n t (by omega)
  · show st.next ≠ t
    omega

lemma safe_setNode {st : Store} {t b : Nat} {nd nd0 : Node} (hs : SafeAt st t)
    (hb0 : st.heap b = some nd0) (hbt : b ≠ t) (hn : t ∉ nd.refs) :
    SafeAt (st.setNode b nd) t ∧ (st.setNode b nd).heap t = st.heap t := by
  obtain ⟨hwf, hnr, hlt⟩ := hs
  exact ⟨⟨wf_setNode hwf nd hb0, noref_setNode hnr hn, hlt⟩,
    heapT_setNode nd hbt⟩

/-- A node address held in any field of any live node differs from the
protected address. -/
lemma noref_field_ne {st : Store} {t b : Nat} {nd : Node} (hnr : NoRefTo st t)
    (hb : st.heap b = some nd) {x : Nat} (hx : x ∈ nd.refs) : x ≠ t := by
  intro he
  exact hnr b nd hb (he ▸ hx)

/-- Reads through `get_value_from_path` only follow field references, so
they can never surface the protected address unless they started there. -/
lemma getValueFromPathH_ne {st : Store} {t : Nat} (hnr : NoRefTo st t) :
    ∀ (keys : List PyObj) (a va : Nat), a ≠ t →
      getValueFromPathH st a keys = some va → va ≠ t := by
  intro keys
  induction keys with
  | nil =>
      intro a va hat h
      unfold getValueFromPathH at h
      cases hn : st.heap a with
      | none => rw [hn] at h; exact Option.noConfusion h
      | some nd =>
          rw [hn] at h
          cases nd <;> simp_all
  | cons k rest ih =>
      intro a va hat h
      unfold getValueFromPathH at h
      cases hn : st.heap a with
      | none => rw [hn] at h; exact Option.noConfusion h
      | some nd =>
          rw [hn] at h
          cases nd with
          | obj fs =>
              dsimp only at h
              cases hl : lookupField fs (stripKey k) with
              | none => rw [hl] at h; exact Option.noConfusion h
              | some b =>
                  rw [hl] at h
                  exact ih b va (noref_field_ne hnr hn (lookupField_mem_refs hl)) h
          | arr xs =>
              dsimp only at h
              cases hi : pyIntOfKey (stripKey k) with
              | none => rw [hi] at h; exact Option.noConfusion h
              | some n =>
                  rw [hi] at h
                  dsimp only at h
                  cases hx : pyListIdx xs n with
                  | none => rw [hx] at h; exact Option.noConfusion h
                  | some b =>
                      rw [hx] at h
                      exact ih b va (noref_field_ne hnr hn (pyListIdx_mem hx)) h
          | null => exact Option.noConfusion h
          | bool b => exact Option.noConfusion h
          | num q => exact Option.noConfusion h
          | str s => exact Option.noConfusion h

/-- A dict assignment only installs the old field addresses or the new
value's address. -/
lemma setField_refs :
    ∀ {fs : List (PyObj × Nat)} {k : PyObj} {v a : Nat},
      a ∈ (setField fs k v).map (fun kv => kv.2) →
        a ∈ fs.map (fun kv => kv.2) ∨ a = v := by
  intro fs
  induction fs with
  | nil =>
      intro k v a h
      simp [setField] at h
      exact Or.inr h
  | cons kv rest ih =>
      intro k v a h
      unfold setField at h
      by_cases hk : kv.1 = k
      · rw [if_pos hk, List.map_cons, List.mem_cons] at h
        rcases h with h | h
        · exact Or.inr h
        · exact Or.inl (by rw [List.map_cons, List.mem_cons]; exact Or.inr h)
      · rw [if_neg hk, List.map_cons, List.mem_cons] at h
        rcases h with h | h
        · exact Or.inl (by rw [List.map_cons, List.mem_cons]; exact Or.inl h)
        · rcases ih h with h2 | h2
          · exact Or.inl (by rw [List.map_cons, List.mem_cons]; exact Or.inr h2)
          · exact Or.inr h2

/-- A list assignment only installs the old elements or the new value. -/
lemma listSetIdx_refs {xs : List Nat} {k : Int} {v : Nat} {xs1 : List Nat}
    (h : listSetIdx xs k v = some xs1) {a : Nat} (ha : a ∈ xs1) :
    a ∈ xs ∨ a = v := by
  unfold listSetIdx at h
  split at h
  · injection h with h1
    rw [← h1] at ha
    exact List.mem_or_eq_of_mem_set ha
  · split at h
    · injection h with h1
      rw [← h1] at ha
      exact List.mem_or_eq_of_mem_set ha
    · exact Option.noConfusion h

lemma safe_alloc_arr {st : Store} {t : Nat} (hs : SafeAt st t) (xs : List Nat)
    (hxs : ∀ a ∈ xs, a ≠ t) :
    SafeAt (st.alloc (.arr xs)).1 t ∧ (st.alloc (.arr xs)).1.heap t = st.heap t ∧
    (st.alloc (.arr xs)).2 ≠ t :=
  safe_alloc hs (.arr xs) (fun hmem => hxs t hmem rfl)

lemma safe_alloc_obj3 {st : Store} {t : Nat} (hs : SafeAt st t) (k1 k2 k3 : PyObj)
    (a1 a2 a3 : Nat) (h1 : a1 ≠ t) (h2 : a2 ≠ t) (h3 : a3 ≠ t) :
    SafeAt (st.alloc (.obj [(k1, a1), (k2, a2), (k3, a3)])).1 t ∧
    (st.alloc (.obj [(k1, a1), (k2, a2), (k3, a3)])).1.heap t = st.heap t ∧
    (st.alloc (.obj [(k1, a1), (k2, a2), (k3, a3)])).2 ≠ t := by
  refine safe_alloc hs _ ?_
  simp only [Node.refs, List.map_cons, List.map_nil, List.mem_cons, List.not_mem_nil,
    or_false]
  push_neg
  exact ⟨fun he => h1 he.symm, fun he => h2 he.symm, fun he => h3 he.symm⟩

lemma allocStrs_safe :
    ∀ (ss : List String) (st : Store) (t : Nat), SafeAt st t →
      SafeAt (allocStrs st ss).1 t ∧ (allocStrs st ss).1.heap t = st.heap t ∧
      ∀ a ∈ (allocStrs st ss).2, a ≠ t := by
  intro ss
  induction ss with
  | nil =>
      intro st t hs
      exact ⟨hs, rfl, fun a ha => absurd ha (List.not_mem_nil a)⟩
  | cons s rest ih =>
      intro st t hs
      unfold allocStrs
      obtain ⟨hs1, hh1, hfa⟩ := safe_alloc hs (.str s) (by simp [Node.refs])
      obtain ⟨hs2, hh2, hmem⟩ := ih (st.alloc (.str s)).1 t hs1
      refine ⟨hs2, by rw [hh2, hh1], ?_⟩
      intro a ha
      rcases List.mem_cons.mp ha with h | h
      · rw [h]; exact hfa
      · exact hmem a h

lemma stringExprToBattmoFuncH_safe {st : Store} {t : Nat} (ea : Nat) (okeys : List PyObj)
    (hs : SafeAt st t) (hea : ea ≠ t) :
    SafeAt (stringExprToBattmoFuncH st ea okeys).1 t ∧
    (stringExprToBattmoFuncH st ea okeys).1.heap t = st.heap t ∧
    (stringExprToBattmoFuncH st ea okeys).2 ≠ t := by
  unfold stringExprToBattmoFuncH
  cases funcParams.find? (fun p => hasComponent okeys p.1) with
  | none => exact ⟨hs, rfl, hea⟩
  | some p =>
      dsimp only
      obtain ⟨hs1, hh1, hfa⟩ := safe_alloc hs (.str "string expression") (by simp [Node.refs])
      obtain ⟨hs2, hh2, hargs⟩ := allocStrs_safe p.2 (st.alloc (.str "string expression")).1 t hs1
      obtain ⟨hs3, hh3, hla⟩ := safe_alloc_arr hs2 _ hargs
      obtain ⟨hs4, hh4, hres⟩ := safe_alloc_obj3 hs3 (.str "functionFormat")
        (.str "argumentList") (.str "expression") _ _ ea hfa hla hea
      exact ⟨hs4, by rw [hh4, hh3, hh2, hh1], hres⟩

lemma battmoFuncToStringExprH_safe {st : Store} {t : Nat} (va : Nat) (hs : SafeAt st t)
    (hva : va ≠ t) :
    SafeAt (battmoFuncToStringExprH st va).1 t ∧
    (battmoFuncToStringExprH st va).1.heap t = st.heap t ∧
    (battmoFuncToStringExprH st va).2 ≠ t := by
  unfold battmoFuncToStringExprH
  cases hn : st.heap va with
  | none => exact ⟨hs, rfl, hva⟩
  | some nd =>
      cases nd with
      | obj fs =>
          dsimp only
          cases hl : lookupField fs (.str "expression") with
          | some ea =>
              exact ⟨hs, rfl, noref_field_ne hs.noref hn (lookupField_mem_refs hl)⟩
          | none =>
              dsimp only
              split
              · exact safe_alloc hs (.str _) (by simp [Node.refs])
              · exact safe_alloc hs (.str _) (by simp [Node.refs])
      | null => exact safe_alloc hs (.str _) (by simp [Node.refs])
      | bool b => exact safe_alloc hs (.str _) (by simp [Node.refs])
      | num q => exact safe_alloc hs (.str _) (by simp [Node.refs])
      | str s => exact safe_alloc hs (.str _) (by simp [Node.refs])
      | arr xs => exact safe_alloc hs (.str _) (by simp [Node.refs])

lemma convertH_safe {st : Store} {t : Nat} (va : Nat) (ik ok : List PyObj) (ot : String)
    (hs : SafeAt st t) (hva : va ≠ t) :
    SafeAt (convertH st va ik ok ot).1 t ∧
    (convertH st va ik ok ot).1.heap t = st.heap t ∧
    (convertH st va ik ok ot).2 ≠ t := by
  unfold convertH
  cases hn : st.heap va with
  | none => exact ⟨hs, rfl, hva⟩
  | some nd =>
      cases nd with
      | str s =>
          dsimp only
          split
          · obtain ⟨hs1, hh1, hea⟩ :=
              safe_alloc hs (.str (replaceVariables s)) (by simp [Node.refs])
            obtain ⟨hs2, hh2, hres⟩ := stringExprToBattmoFuncH_safe
              (st.alloc (.str (replaceVariables s))).2 ok hs1 hea
            exact ⟨hs2, by rw [hh2, hh1], hres⟩
          · split
            · exact safe_alloc hs (.str _) (by simp [Node.refs])
            · exact ⟨hs, rfl, hva⟩
      | obj fs =>
          dsimp only
          split
          · exact battmoFuncToStringExprH_safe va hs hva
          · exact ⟨hs, rfl, hva⟩
      | null => exact ⟨hs, rfl, hva⟩
      | bool b => exact ⟨hs, rfl, hva⟩
      | num q => exact ⟨hs, rfl, hva⟩
      | arr xs => exact ⟨hs, rfl, hva⟩

lemma appendEmpties_safe :
    ∀ (n : Nat) (st : Store) (xs : List Nat) (t : Nat), SafeAt st t →
      SafeAt (appendEmpties st xs n).1 t ∧
      (appendEmpties st xs n).1.heap t = st.heap t ∧
      ∀ a ∈ (appendEmpties st xs n).2, a ∈ xs ∨ a ≠ t := by
  intro n
  induction n with
  | zero => intro st xs t hs; exact ⟨hs, rfl, fun a ha => Or.inl ha⟩
  | succ n ih =>
      intro st xs t hs
      unfold appendEmpties
      obtain ⟨hs1, hh1, hfresh⟩ := safe_alloc hs (.obj []) (by simp [Node.refs])
      obtain ⟨hs2, hh2, hmem⟩ := ih (st.alloc (.obj [])).1 (xs ++ [(st.alloc (.obj [])).2]) t hs1
      refine ⟨hs2, by rw [hh2, hh1], ?_⟩
      intro a ha
      rcases hmem a ha with h | h
      · rcases List.mem_append.mp h with h2 | h2
        · exact Or.inl h2
        · rw [List.mem_singleton.mp h2]; exact Or.inr hfresh
      · exact Or.inr h

lemma extendList_safe (st : Store) (xs : List Nat) (tgt t : Nat) (hs : SafeAt st t) :
    SafeAt (extendList st xs tgt).1 t ∧
    (extendList st xs tgt).1.heap t = st.heap t ∧
    ∀ a ∈ (extendList st xs tgt).2, a ∈ xs ∨ a ≠ t := by
  unfold extendList
  split
  · exact appendEmpties_safe _ st xs t hs
  · exact ⟨hs, rfl, fun a ha => Or.inl ha⟩

lemma setFinal_safe {st : Store} {t : Nat} (cur : Nat) (k : PyObj) (va : Nat)
    (hs : SafeAt st t) (hcur : cur ≠ t) (hva : va ≠ t) :
    SafeAt (setFinal st cur k va).1 t ∧ (setFinal st cur k va).1.heap t = st.heap t := by
  unfold setFinal
  cases hc : st.heap cur with
  | none => exact ⟨hs, rfl⟩
  | some nd =>
      cases nd with
      | obj fs =>
          dsimp only
          split
          · exact ⟨hs, rfl⟩
          · refine safe_setNode hs hc hcur ?_
            intro hmem
            rcases setField_refs hmem with h | h
            · exact noref_field_ne hs.noref hc h rfl
            · exact hva h.symm
      | arr xs =>
          dsimp only
          split
          · split
            · rename_i hset
              refine safe_setNode hs hc hcur ?_
              intro hmem
              rcases listSetIdx_refs hset hmem with h | h
              · exact noref_field_ne hs.noref hc h rfl
              · exact hva h.symm
            · exact ⟨hs, rfl⟩
          · exact ⟨hs, rfl⟩
      | null => exact ⟨hs, rfl⟩
      | bool b => exact ⟨hs, rfl⟩
      | num q => exact ⟨hs, rfl⟩
      | str s => exact ⟨hs, rfl⟩

/-- The write walk of `set_value_from_path` never touches the protected
address: it starts away from it, every reference it follows avoids it
(`NoRefTo`), and every freshly allocated container is above it. -/
lemma setWalk_safe :
    ∀ (keys : List PyObj) (st : Store) (cur va t : Nat), SafeAt st t → cur ≠ t → va ≠ t →
      SafeAt (setWalk st cur keys va).1 t ∧
      (setWalk st cur keys va).1.heap t = st.heap t := by
  intro keys
  induction keys with
  | nil => intro st cur va t hs _ _; exact ⟨hs, rfl⟩
  | cons k rest ih =>
      intro st cur va t hs hcur hva
      rcases rest with _ | ⟨k2, rest2⟩
      · exact setFinal_safe cur k va hs hcur hva
      · show SafeAt (setWalk st cur (k :: k2 :: rest2) va).1 t ∧ _
        unfold setWalk
        dsimp only
        have hstep : ∀ ki : Int,
            SafeAt (match st.heap cur with
              | some (.arr xs) =>
                  let exd := if 0 ≤ ki then extendList st xs ki.toNat else (st, xs)
                  let st2 := exd.1.setNode cur (.arr exd.2)
                  match pyListIdx exd.2 ki with
                  | some b => setWalk st2 b (k2 :: rest2) va
                  | none => (st2, some .indexError)
              | some (.obj fs) =>
                  if (fs.length : Int) ≤ ki then (st, some .attributeError)
                  else
                    match lookupField fs (.int ki) with
                    | some b => setWalk st b (k2 :: rest2) va
                    | none => (st, some .keyError)
              | some (.str s) =>
                  if (s.data.length : Int) ≤ ki then (st, some .attributeError)
                  else
                    match pyStrIdx s ki with
                    | some ch =>
                        let al := st.alloc (.str (String.mk [ch]))
                        setWalk al.1 al.2 (k2 :: rest2) va
                    | none => (st, some .indexError)
              | some _ => (st, some .typeError)
              | none => (st, some .typeError)).1 t ∧
            (match st.heap cur with
              | some (.arr xs) =>
                  let exd := if 0 ≤ ki then extendList st xs ki.toNat else (st, xs)
                  let st2 := exd.1.setNode cur (.arr exd.2)
                  match pyListIdx exd.2 ki with
                  | some b => setWalk st2 b (k2 :: rest2) va
                  | none => (st2, some .indexError)
              | some (.obj fs) =>
                  if (fs.length : Int) ≤ ki then (st, some .attributeError)
                  else
                    match lookupField fs (.int ki) with
                    | some b => setWalk st b (k2 :: rest2) va
                    | none => (st, some .keyError)
              | some (.str s) =>
                  if (s.data.length : Int) ≤ ki then (st, some .attributeError)
                  else
                    match pyStrIdx s ki with
                    | some ch =>
                        let al := st.alloc (.str (String.mk [ch]))
                        setWalk al.1 al.2 (k2 :: rest2) va
                    | none => (st, some .indexError)
              | some _ => (st, some .typeError)
              | none => (st, some .typeError)).1.heap t = st.heap t := by
          intro ki
          cases hc : st.heap cur with
          | none => exact ⟨hs, rfl⟩
          | some nd =>
              cases nd with
              | arr xs =>
                  dsimp only
                  have hsE : SafeAt (if 0 ≤ ki then extendList st xs ki.toNat
                        else (st, xs)).1 t ∧
                      (if 0 ≤ ki then extendList st xs ki.toNat else (st, xs)).1.heap t =
                        st.heap t ∧
                      ∀ a ∈ (if 0 ≤ ki then extendList st xs ki.toNat else (st, xs)).2,
                        a ∈ xs ∨ a ≠ t := by
                    split
                    · exact extendList_safe st xs ki.toNat t hs
                    · exact ⟨hs, rfl, fun a ha => Or.inl ha⟩
                  have hext : HeapExtends st (if 0 ≤ ki then extendList st xs ki.toNat
                      else (st, xs)).1 := by
                    split
                    · exact extendList_extends st xs ki.toNat hs.wf
                    · intro b nd hb; exact hb
                  have hcE := hext cur _ hc
                  have helem : ∀ a ∈ (if 0 ≤ ki then extendList st xs ki.toNat
                      else (st, xs)).2, a ≠ t := by
                    intro a ha
                    rcases hsE.2.2 a ha with h | h
                    · exact noref_field_ne hs.noref hc h
                    · exact h
                  have hnode : t ∉ (Node.arr (if 0 ≤ ki then extendList st xs ki.toNat
                      else (st, xs)).2).refs := by
                    intro hmem
                    simp only [Node.refs] at hmem
                    exact helem t hmem rfl
                  obtain ⟨hsS, hhS⟩ := safe_setNode hsE.1 hcE hcur hnode
                  cases hb : pyListIdx (if 0 ≤ ki then extendList st xs ki.toNat
                      else (st, xs)).2 ki with
                  | some b =>
                      obtain ⟨hs2, hh2⟩ := ih _ b va t hsS (helem b (pyListIdx_mem hb)) hva
                      exact ⟨hs2, by rw [hh2, hhS, hsE.2.1]⟩
                  | none => exact ⟨hsS, by rw [hhS, hsE.2.1]⟩
              | obj fs =>
                  dsimp only
                  split
                  · exact ⟨hs, rfl⟩
                  · cases hl : lookupField fs (.int ki) with
                    | some b =>
                        exact ih st b va t hs
                          (noref_field_ne hs.noref hc (lookupField_mem_refs hl)) hva
                    | none => exact ⟨hs, rfl⟩
              | str s =>
                  dsimp only
                  split
                  · exact ⟨hs, rfl⟩
                  · cases pyStrIdx s ki with
                    | some ch =>
                        obtain ⟨hs1, hh1, hfresh⟩ :=
                          safe_alloc hs (.str (String.mk [ch])) (by simp [Node.refs])
                        obtain ⟨hs2, hh2⟩ := ih _ _ va t hs1 hfresh hva
                        exact ⟨hs2, by rw [hh2, hh1]⟩
                    | none => exact ⟨hs, rfl⟩
              | null => exact ⟨hs, rfl⟩
              | bool b => exact ⟨hs, rfl⟩
              | num q => exact ⟨hs, rfl⟩
        cases hk : stripKey k with
        | int n => exact hstep n
        | str s =>
            by_cases hd : isDigitStr s = true
            · simp only [hd, eq_self_iff_true, if_true]
              exact hstep ((natFromDigits s.data : Nat) : Int)
            · simp only [hd, if_false]
              cases hc : st.heap cur with
              | none => exact ⟨hs, rfl⟩
              | some nd =>
                  cases nd with
                  | obj fs =>
                      dsimp only
                      cases hl : lookupField fs (.str s) with
                      | some b =>
                          exact ih st b va t hs
                            (noref_field_ne hs.noref hc (lookupField_mem_refs hl)) hva
                      | none =>
                          obtain ⟨hs1, hh1, hal⟩ :=
                            safe_alloc hs (.obj []) (by simp [Node.refs])
                          have hcA := heapExtends_alloc hs.wf (.obj []) cur _ hc
                          have hnode : t ∉ (Node.obj (setField fs (.str s)
                              (st.alloc (.obj [])).2)).refs := by
                            intro hmem
                            rcases setField_refs hmem with h | h
                            · exact noref_field_ne hs.noref hc h rfl
                            · exact hal h.symm
                          obtain ⟨hsS, hhS⟩ := safe_setNode hs1 hcA hcur hnode
                          obtain ⟨hs2, hh2⟩ := ih _ _ va t hsS hal hva
                          exact ⟨hs2, hh2.trans (hhS.trans hh1)⟩
                  | null => exact ⟨hs, rfl⟩
                  | bool b => exact ⟨hs, rfl⟩
                  | num q => exact ⟨hs, rfl⟩
                  | str s2 => exact ⟨hs, rfl⟩
                  | arr xs => exact ⟨hs, rfl⟩
        | tuple xs => exact ⟨hs, rfl⟩
        | list xs => exact ⟨hs, rfl⟩

/-- The whole entry loop of `map_parameters` leaves the protected address
untouched when the walk roots and the input document address avoid it. -/
lemma mapLoop_safe :
    ∀ (ms : Mappings) (st : Store) (outA ia t : Nat) (ot : String) (d : List String),
      SafeAt st t → outA ≠ t → ia ≠ t →
      ∀ r, mapLoop st outA ia ms ot d = .ok r → SafeAt r.1 t ∧ r.1.heap t = st.heap t := by
  intro ms
  induction ms with
  | nil =>
      intro st outA ia t ot d hs _ _ r hr
      injection hr with h1
      rw [← h1]
      exact ⟨hs, rfl⟩
  | cons e rest ih =>
      intro st outA ia t ot d hs ho hi r hr
      obtain ⟨ik, ok⟩ := e
      unfold mapLoop at hr
      cases hv : getValueFromPathH st ia ik with
      | none =>
          rw [hv] at hr
          exact ih st outA ia t ot d hs ho hi r hr
      | some va =>
          rw [hv] at hr
          dsimp only at hr
          have hva := getValueFromPathH_ne hs.noref ik ia va hi hv
          obtain ⟨hsC, hhC, hvC⟩ := convertH_safe va ik ok ot hs hva
          obtain ⟨hsW, hhW⟩ := setWalk_safe ok (convertH st va ik ok ot).1 outA
            (convertH st va ik ok ot).2 t hsC ho hvC
          unfold setValueFromPathH at hr
          rcases hsw : setWalk (convertH st va ik ok ot).1 outA ok
              (convertH st va ik ok ot).2 with ⟨st1, oe⟩
          rw [hsw] at hr hsW hhW
          dsimp only at hr hsW hhW
          cases oe with
          | none =>
              dsimp only at hr
              obtain ⟨hs2, hh2⟩ := ih st1 outA ia t ot (removeDefaultFromUsed d ok)
                hsW ho hi r hr
              exact ⟨hs2, hh2.trans (hhW.trans hhC)⟩
          | some e =>
              cases e with
              | attributeError =>
                  dsimp only at hr
                  exact Except.noConfusion hr
              | valueError m =>
                  dsimp only at hr
                  obtain ⟨hs2, hh2⟩ := ih st1 outA ia t ot (removeDefaultFromUsed d ok)
                    hsW ho hi r hr
                  exact ⟨hs2, hh2.trans (hhW.trans hhC)⟩
              | keyError =>
                  dsimp only at hr
                  obtain ⟨hs2, hh2⟩ := ih st1 outA ia t ot (removeDefaultFromUsed d ok)
                    hsW ho hi r hr
                  exact ⟨hs2, hh2.trans (hhW.trans hhC)⟩
              | indexError =>
                  dsimp only at hr
                  obtain ⟨hs2, hh2⟩ := ih st1 outA ia t ot (removeDefaultFromUsed d ok)
                    hsW ho hi r hr
                  exact ⟨hs2, hh2.trans (hhW.trans hhC)⟩
              | typeError =>
                  dsimp only at hr
                  obtain ⟨hs2, hh2⟩ := ih st1 outA ia t ot (removeDefaultFromUsed d ok)
                    hsW ho hi r hr
                  exact ⟨hs2, hh2.trans (hhW.trans hhC)⟩

lemma safe_alloc_obj4 {st : Store} {t : Nat} (hs : SafeAt st t) (k1 k2 k3 k4 : PyObj)
    (a1 a2 a3 a4 : Nat) (h1 : a1 ≠ t) (h2 : a2 ≠ t) (h3 : a3 ≠ t) (h4 : a4 ≠ t) :
    SafeAt (st.alloc (.obj [(k1, a1), (k2, a2), (k3, a3), (k4, a4)])).1 t ∧
    (st.alloc (.obj [(k1, a1), (k2, a2), (k3, a3), (k4, a4)])).1.heap t = st.heap t ∧
    (st.alloc (.obj [(k1, a1), (k2, a2), (k3, a3), (k4, a4)])).2 ≠ t := by
  refine safe_alloc hs _ ?_
  simp only [Node.refs, List.map_cons, List.map_nil, List.mem_cons, List.not_mem_nil,
    or_false]
  push_neg
  exact ⟨fun he => h1 he.symm, fun he => h2 he.symm, fun he => h3 he.symm,
    fun he => h4 he.symm⟩

/-- Installing the filtered header fields at an address away from the
protected one keeps it safe. -/
lemma setNode_filtered_header_safe {st : Store} {t a hv : Nat}
    {fs : List (PyObj × Nat)}
    (hs : SafeAt st t) (hc : st.heap a = some (.obj fs)) (hat : a ≠ t) (hhv : hv ≠ t) :
    SafeAt (st.setNode a (.obj ((setField fs (.str "Header") hv).filter
      (fun kv => kv.1 ≠ PyObj.str "Validation")))) t ∧
    (st.setNode a (.obj ((setField fs (.str "Header") hv).filter
      (fun kv => kv.1 ≠ PyObj.str "Validation")))).heap t = st.heap t := by
  refine safe_setNode hs hc hat ?_
  intro hmem
  simp only [Node.refs] at hmem
  obtain ⟨kv, hkv, hsnd⟩ := List.mem_map.mp hmem
  have hkv2 : kv ∈ setField fs (.str "Header") hv := List.mem_of_mem_filter hkv
  have hmem2 : t ∈ (setField fs (.str "Header") hv).map (fun kv => kv.2) :=
    List.mem_map.mpr ⟨kv, hkv2, hsnd⟩
  rcases setField_refs hmem2 with hcase | hcase
  · exact noref_field_ne hs.noref hc hcase rfl
  · exact hhv hcase.symm

lemma setBpxHeaderH_safe {st : Store} {t : Nat} (a : Nat) (url : String)
    (hs : SafeAt st t) (hat : a ≠ t) :
    ∀ st2, setBpxHeaderH st a url = .ok st2 → SafeAt st2 t ∧ st2.heap t = st.heap t := by
  intro st2 h
  unfold setBpxHeaderH at h
  cases hc : st.heap a with
  | none => rw [hc] at h; exact Except.noConfusion h
  | some nd =>
      rw [hc] at h
      cases nd with
      | obj fs =>
          dsimp only at h
          obtain ⟨hs1, hh1, hbv⟩ := safe_alloc hs (.num (mkRat 1 10)) (by simp [Node.refs])
          obtain ⟨hs2, hh2, htv⟩ := safe_alloc hs1
            (.str "An autoconverted parameter set using BatteryModelMapper")
            (by simp [Node.refs])
          obtain ⟨hs3, hh3, hdv⟩ := safe_alloc hs2 (.str (bpxDescription url))
            (by simp [Node.refs])
          obtain ⟨hs4, hh4, hmv⟩ := safe_alloc hs3 (.str "DFN") (by simp [Node.refs])
          obtain ⟨hs5, hh5, hhv⟩ := safe_alloc_obj4 hs4 (.str "BPX") (.str "Title")
            (.str "Description") (.str "Model") _ _ _ _ hbv htv hdv hmv
          have hA1 := heapT_alloc hs.wf hc (Node.num (mkRat 1 10))
          have hA2 := heapT_alloc hs1.wf hA1
            (Node.str "An autoconverted parameter set using BatteryModelMapper")
          have hA3 := heapT_alloc hs2.wf hA2 (Node.str (bpxDescription url))
          have hA4 := heapT_alloc hs3.wf hA3 (Node.str "DFN")
          obtain ⟨hsS, hhS⟩ := setNode_filtered_header_safe hs5
            (heapT_alloc hs4.wf hA4 _) hat hhv
          cases h
          exact ⟨hsS, hhS.trans (hh5.trans (hh4.trans (hh3.trans (hh2.trans hh1))))⟩
      | null => exact Except.noConfusion h
      | bool b => exact Except.noConfusion h
      | num q => exact Except.noConfusion h
      | str s => exact Except.noConfusion h
      | arr xs => exact Except.noConfusion h

lemma demoStoreB_noref : NoRefTo demoStoreB 0 := by
  intro b nd hb
  by_cases h0 : b = 0
  · simp [demoStoreB, h0] at hb
    rw [← hb]
    decide
  · by_cases h1 : b = 1
    · simp [demoStoreB, h0, h1] at hb
      rw [← hb]
      decide
    · by_cases h2 : b = 2
      · simp [demoStoreB, h0, h1, h2] at hb
        rw [← hb]
        decide
      · simp [demoStoreB, h0, h1, h2] at hb

/-- C2, amended: `map_parameters` never mutates the template's *own*
top-level container — under the usual heap assumptions for separately
loaded JSON documents (no node references the template's address and the
input document is a different object), the node at the template's address
is the same after a successful run.  The original claim's stronger reading
— that no *nested* object reachable from the template is mutated — is
false, because `self.template.copy()` is a shallow `dict.copy()`: see the
counterexample, where a two-component destination path writes through a
shared nested mapping. -/
theorem template_object_not_mutated (st : Store) (ms : Mappings) (ta ia : Nat)
    (url ot : String) (d0 : List String) (hwf : WFStore st) (hnr : NoRefTo st ta)
    (nt : Node) (hta : st.heap ta = some nt) (hia : ia ≠ ta) :
    ∀ r, mapParametersH st ms ta ia url ot d0 = .ok r → r.1.heap ta = st.heap ta := by
  intro r hr
  have hs : SafeAt st ta := ⟨hwf, hnr, hwf.lt_next hta⟩
  unfold mapParametersH copyShallow at hr
  rw [hta] at hr
  have hgo : ∀ (nc : Node), ta ∉ nc.refs →
      (match mapLoop (st.alloc nc).1 (st.alloc nc).2 ia ms ot d0 with
        | Except.error e => Except.error e
        | Except.ok (st2, d2) =>
            match (if ot = "bpx" then setBpxHeaderH st2 (st.alloc nc).2 url
                else Except.ok st2) with
            | Except.error e => Except.error e
            | Except.ok st3 =>
                Except.ok (st3, (st.alloc nc).2, removeHighLevelDefaults d2)) =
        Except.ok r →
      r.1.heap ta = st.heap ta := by
    intro nc hnode hr2
    obtain ⟨hs1, hh1, houtNe⟩ := safe_alloc hs nc hnode
    cases hml : mapLoop (st.alloc nc).1 (st.alloc nc).2 ia ms ot d0 with
    | error e => rw [hml] at hr2; exact Except.noConfusion hr2
    | ok r2 =>
        rw [hml] at hr2
        obtain ⟨st2m, d2m⟩ := r2
        dsimp only at hr2
        obtain ⟨hs2, hh2⟩ := mapLoop_safe ms (st.alloc nc).1 (st.alloc nc).2
          ia ta ot d0 hs1 houtNe hia (st2m, d2m) hml
        by_cases hbpx : ot = "bpx"
        · rw [if_pos hbpx] at hr2
          cases hbh : setBpxHeaderH st2m (st.alloc nc).2 url with
          | error e => rw [hbh] at hr2; exact Except.noConfusion hr2
          | ok st3 =>
              rw [hbh] at hr2
              dsimp only at hr2
              injection hr2 with h1
              rw [← h1]
              obtain ⟨hs3, hh3⟩ := setBpxHeaderH_safe (st.alloc nc).2 url hs2 houtNe st3 hbh
              exact hh3.trans (hh2.trans hh1)
        · rw [if_neg hbpx] at hr2
          injection hr2 with h1
          rw [← h1]
          exact hh2.trans hh1
  cases nt with
  | obj fs =>
      dsimp only at hr
      exact hgo (.obj fs) (fun hmem => hnr ta (.obj fs) hta hmem) hr
  | arr xs =>
      dsimp only at hr
      exact hgo (.arr xs) (fun hmem => hnr ta (.arr xs) hta hmem) hr
  | null => exact Except.noConfusion hr
  | bool b => exact Except.noConfusion hr
  | num q => exact Except.noConfusion hr
  | str s => exact Except.noConfusion hr

/-- Counterexample to C2 as stated: the template `{"a": {"b": 1}}` shares
its nested mapping with the shallow working copy, so translating the
single entry `x -> ("a", "b")` (input `{"x": 2}`) mutates that nested
mapping in place — afterwards the *original* template reads back as
`{"a": {"b": 2}}`. -/
theorem template_nested_mutation_counterexample :
    reifyF 10 demoStoreA 0 = some (.obj [("a", .obj [("b", .num 1)])]) ∧
    (okStoreOf (mapParametersH demoStoreA [([PyObj.str "x"], [PyObj.str "a", PyObj.str "b"])]
        0 3 "u" "cidemod" [])).map (fun st => reifyF 10 st 0) =
      some (some (.obj [("a", .obj [("b", .num 2)])])) :=
  ⟨by decide, by decide⟩

theorem template_object_not_mutated_witness :
    (okStoreOf (mapParametersH demoStoreB [([PyObj.str "v"], [PyObj.str "w"])] 0 1
      "u" "cidemod" [])).map (fun s2 => s2.heap 0) = some (demoStoreB.heap 0) := by
  obtain ⟨r, hr⟩ : ∃ r, mapParametersH demoStoreB [([PyObj.str "v"], [PyObj.str "w"])] 0 1
      "u" "cidemod" [] = .ok r := ⟨_, rfl⟩
  have h := template_object_not_mutated demoStoreB [([PyObj.str "v"], [PyObj.str "w"])] 0 1
    "u" "cidemod" [] demoStoreB_wf demoStoreB_noref (Node.obj []) rfl (by decide) r hr
  rw [hr]
  show some (r.1.heap 0) = some (demoStoreB.heap 0)
  rw [h]

/-! ## Deduplication facts for the exporter's `set(...)` loops -/

lemma dedupFirstAux_not_mem {α : Type} [DecidableEq α] :
    ∀ (l seen : List α) (a : α), seen.contains a = true → a ∉ dedupFirstAux seen l := by
  intro l
  induction l with
  | nil => intro seen a _ h; exact absurd h (List.not_mem_nil a)
  | cons x rest ih =>
      intro seen a ha h
      unfold dedupFirstAux at h
      by_cases hx : seen.contains x = true
      · rw [if_pos hx] at h
        exact ih seen a ha h
      · rw [if_neg hx] at h
        rcases List.mem_cons.mp h with he | hm
        · rw [he] at ha
          exact hx ha
        · refine ih (x :: seen) a ?_ hm
          simp only [List.contains_cons, ha, Bool.or_true]

lemma dedupFirstAux_count_le_one {α : Type} [DecidableEq α] :
    ∀ (l seen : List α) (a : α), (dedupFirstAux seen l).count a ≤ 1 := by
  intro l
  induction l with
  | nil => intro seen a; simp [dedupFirstAux]
  | cons x rest ih =>
      intro seen a
      unfold dedupFirstAux
      by_cases hx : seen.contains x = true
      · rw [if_pos hx]
        exact ih seen a
      · rw [if_neg hx]
        rw [List.count_cons]
        by_cases hax : a = x
        · have hnm : a ∉ dedupFirstAux (x :: seen) rest := by
            refine dedupFirstAux_not_mem rest (x :: seen) a ?_
            simp [List.contains_cons, hax]
          rw [List.count_eq_zero_of_not_mem hnm]
          split <;> omega
        · have hxa : ¬(x = a) := fun he => hax he.symm
          simp [hxa]
          exact ih (x :: seen) a

lemma dedupFirstAux_mem {α : Type} [DecidableEq α] :
    ∀ (l seen : List α) (a : α), a ∈ l → seen.contains a = false →
      a ∈ dedupFirstAux seen l := by
  intro l
  induction l with
  | nil => intro seen a ha _; exact absurd ha (List.not_mem_nil a)
  | cons x rest ih =>
      intro seen a ha hns
      unfold dedupFirstAux
      rcases List.mem_cons.mp ha with he | hm
      · have hsx : seen.contains x = false := by rw [← he]; exact hns
        rw [if_neg (by rw [hsx]; exact Bool.false_ne_true)]
        exact List.mem_cons.mpr (Or.inl he)
      · by_cases hx : seen.contains x = true
        · rw [if_pos hx]
          exact ih seen a hm hns
        · rw [if_neg hx]
          by_cases hax : a = x
          · exact List.mem_cons.mpr (Or.inl hax)
          · refine List.mem_cons.mpr (Or.inr (ih (x :: seen) a hm ?_))
            simp [List.contains_cons, hns, hax]
            simp at hns
            exact hns

lemma dedupFirst_count_one {α : Type} [DecidableEq α] (l : List α) (a : α)
    (ha : a ∈ l) : (dedupFirst l).count a = 1 := by
  have hmem : a ∈ dedupFirst l := dedupFirstAux_mem l [] a ha rfl
  have hle : (dedupFirst l).count a ≤ 1 := dedupFirstAux_count_le_one l [] a
  have hpos : 0 < (dedupFirst l).count a := List.count_pos_iff.mpr hmem
  omega

/-- C7: every ontology subject carrying the input-format annotation is
processed exactly once (the loop runs over `set(g.subjects(input_key,
None))`), and when its declared path resolves in the input document it
contributes exactly one property node whose parts follow the value's
shape: a numeric or numeric-looking value yields
`hasNumericalPart = {"@type": "Real", "hasNumericalValue": float(value)}`
and no `hasStringPart`; non-numeric text yields
`hasStringPart = {"@type": "String", "hasStringValue": <the text>}`; a
mapping with a `functionname` key contributes that function's name as the
string value. -/
theorem exporter_property_node_shapes (g : RdfGraph) (ik : String) (input : JValue)
    (s lit : String) (v : JValue)
    (hlit : firstIkObj g ik s = some lit)
    (htru : pyTruthy (parseKey lit) = true)
    (hval : exporterGet input (parseKey lit) = some v) :
    (subjectsWithKey g ik).count s = 1 ∧
    ∃ nfs, propNodeFor g ik input s = some (.obj nfs) ∧
      (isNumberLike v = true →
        lookupJ nfs "hasNumericalPart" =
          some (.obj [("@type", .str "Real"), ("hasNumericalValue", .num (pyFloatJ v))]) ∧
        lookupJ nfs "hasStringPart" = none) ∧
      (∀ s2, v = .str s2 → isNumberLike v = false →
        lookupJ nfs "hasStringPart" =
          some (.obj [("@type", .str "String"), ("hasStringValue", .str s2)]) ∧
        lookupJ nfs "hasNumericalPart" = none) ∧
      (∀ fs2 fv, v = .obj fs2 → lookupJ fs2 "functionname" = some fv →
        lookupJ nfs "hasStringPart" =
          some (.obj [("@type", .str "String"), ("hasStringValue", .str (pyStrJ fv))]) ∧
        lookupJ nfs "hasNumericalPart" = none) := by
  constructor
  · unfold subjectsWithKey
    refine dedupFirst_count_one _ s ?_
    unfold firstIkObj at hlit
    cases hf : g.triples.find? (fun t => t.1 == s && t.2.1 == ik) with
    | none => rw [hf] at hlit; exact Option.noConfusion hlit
    | some tr =>
        have htrm := List.mem_of_find?_eq_some hf
        have hp := List.find?_some hf
        rw [Bool.and_eq_true] at hp
        refine List.mem_filterMap.mpr ⟨tr, htrm, ?_⟩
        rw [if_pos hp.2]
        rw [beq_iff_eq.mp hp.1]
  · unfold propNodeFor
    rw [hlit]
    dsimp only
    rw [htru]
    rw [hval]
    dsimp only [Bool.not_true, Bool.false_eq_true, if_false]
    refine ⟨_, rfl, ?_, ?_, ?_⟩
    · intro hnum
      rw [hnum]
      cases getUnitForSubject g s <;> simp [lookupJ]
    · intro s2 hv2 hnum
      subst hv2
      rw [hnum]
      cases getUnitForSubject g s <;> simp [lookupJ]
    · intro fs2 fv hv2 hfn
      subst hv2
      dsimp only
      rw [hfn]
      cases getUnitForSubject g s <;> simp [lookupJ]

theorem exporter_property_node_shapes_witness :
    (subjectsWithKey demoGraph bpxPredicate).count "sub1" = 1 ∧
    ∃ nfs, propNodeFor demoGraph bpxPredicate
        (.obj [("a", .num (mkRat 2 100000))]) "sub1" = some (.obj nfs) ∧
      (isNumberLike (JValue.num (mkRat 2 100000)) = true →
        lookupJ nfs "hasNumericalPart" =
          some (.obj [("@type", .str "Real"),
            ("hasNumericalValue", .num (pyFloatJ (JValue.num (mkRat 2 100000))))]) ∧
        lookupJ nfs "hasStringPart" = none) ∧
      (∀ s2, JValue.num (mkRat 2 100000) = .str s2 →
        isNumberLike (JValue.num (mkRat 2 100000)) = false →
        lookupJ nfs "hasStringPart" =
          some (.obj [("@type", .str "String"), ("hasStringValue", .str s2)]) ∧
        lookupJ nfs "hasNumericalPart" = none) ∧
      (∀ fs2 fv, JValue.num (mkRat 2 100000) = .obj fs2 →
        lookupJ fs2 "functionname" = some fv →
        lookupJ nfs "hasStringPart" =
          some (.obj [("@type", .str "String"), ("hasStringValue", .str (pyStrJ fv))]) ∧
        lookupJ nfs "hasNumericalPart" = none) :=
  exporter_property_node_shapes demoGraph bpxPredicate
    (.obj [("a", .num (mkRat 2 100000))]) "sub1" "('a',)" (.num (mkRat 2 100000))
    (by decide) (by decide) (by decide)

end BMM
